import Mathlib

/-!
# music_health: kernel density estimator and word-cloud force layout

A shallow embedding of the two algorithmic parts of `src/js/project.js`:

* `kernelDensityEstimator` / `kernelEpanechnikov` (lines 2003-2013), and
* the `WordParticle` class with `update`, the `animate` frame and the drag
  handlers of `initGenreCloud` (lines 817-871, 942-946, 1033-1057).

JavaScript numbers are embedded as `JSNum`: an exact rational, or one of the
three non-finite values `Infinity`, `-Infinity`, `NaN`.  Rounding and overflow
of IEEE doubles are not modelled (finite arithmetic is exact), and zero is
unsigned (a zero divisor is treated as `+0`).  `Math.sqrt` is a parameter of
the definitions that call it.

Where the rounding itself decides a property (the order in which `d3.mean` adds
the kernel values), the density estimator is also given with a rounding function
as a parameter (`kernelDensityEstimatorRounded`), evaluated with the binary64
rounding `roundToDouble`.
-/

set_option autoImplicit false

/-! ## JavaScript numbers -/

/-- A JavaScript number: a finite value (kept exact), `Infinity`, `-Infinity` or `NaN`. -/
inductive JSNum where
  | fin (q : ℚ)
  | posInf
  | negInf
  | nan
  deriving DecidableEq, Repr

namespace JSNum

/-- JavaScript unary minus. -/
def neg : JSNum → JSNum
  | fin a => fin (-a)
  | posInf => negInf
  | negInf => posInf
  | nan => nan

/-- JavaScript `a + b`. -/
def add : JSNum → JSNum → JSNum
  | fin a, fin b => fin (a + b)
  | fin _, posInf => posInf
  | fin _, negInf => negInf
  | posInf, fin _ => posInf
  | posInf, posInf => posInf
  | negInf, fin _ => negInf
  | negInf, negInf => negInf
  | _, _ => nan

/-- JavaScript `a - b`. -/
def sub (a b : JSNum) : JSNum := add a (neg b)

/-- The value of `Infinity * q` (with `pos = true`) or `-Infinity * q` for a finite `q`. -/
def infTimes (pos : Bool) (q : ℚ) : JSNum :=
  if q = 0 then nan else if (0 < q) = pos then posInf else negInf

/-- JavaScript `a * b`. -/
def mul : JSNum → JSNum → JSNum
  | fin a, fin b => fin (a * b)
  | fin a, posInf => infTimes true a
  | fin a, negInf => infTimes false a
  | posInf, fin b => infTimes true b
  | negInf, fin b => infTimes false b
  | posInf, posInf => posInf
  | posInf, negInf => negInf
  | negInf, posInf => negInf
  | negInf, negInf => posInf
  | _, _ => nan

/-- JavaScript `a / b`.  A finite value divided by zero is `NaN` for `0 / 0` and an
infinity with the sign of the numerator otherwise. -/
def div : JSNum → JSNum → JSNum
  | fin a, fin b =>
      if b = 0 then (if a = 0 then nan else if 0 < a then posInf else negInf)
      else fin (a / b)
  | fin _, posInf => fin 0
  | fin _, negInf => fin 0
  | posInf, fin b => if 0 ≤ b then posInf else negInf
  | negInf, fin b => if 0 ≤ b then negInf else posInf
  | _, _ => nan

/-- JavaScript `Math.abs`. -/
def abs : JSNum → JSNum
  | fin a => fin |a|
  | posInf => posInf
  | negInf => posInf
  | nan => nan

/-- JavaScript `a <= b`: false as soon as one side is `NaN`. -/
def le : JSNum → JSNum → Bool
  | fin a, fin b => decide (a ≤ b)
  | fin _, posInf => true
  | negInf, fin _ => true
  | negInf, negInf => true
  | negInf, posInf => true
  | posInf, posInf => true
  | _, _ => false

/-- JavaScript `a < b`: false as soon as one side is `NaN`. -/
def lt : JSNum → JSNum → Bool
  | fin a, fin b => decide (a < b)
  | fin _, posInf => true
  | negInf, fin _ => true
  | negInf, posInf => true
  | _, _ => false

/-- JavaScript `Math.sqrt`, given its values `sqrt` on the non-negative finite numbers. -/
def sqrtWith (sqrt : ℚ → ℚ) : JSNum → JSNum
  | fin a => if a < 0 then nan else fin (sqrt a)
  | posInf => posInf
  | _ => nan

/-- Whether the number is `NaN`. -/
def isNaN : JSNum → Bool
  | nan => true
  | _ => false

instance : Add JSNum := ⟨add⟩
instance : Sub JSNum := ⟨sub⟩
instance : Mul JSNum := ⟨mul⟩
instance : Div JSNum := ⟨div⟩
instance : Neg JSNum := ⟨neg⟩
instance : Zero JSNum := ⟨fin 0⟩

end JSNum

/-! ## Kernel density estimation (lines 2003-2013) -/

/-- Modelled from the spec: `d3.mean(values, accessor)` is library code that is not
under `src/`.  It is the mean of the accessor's values, and `undefined` (here `none`)
when there is no value; as in the d3 library, values that are `NaN` are left out. -/
def d3mean (values : List JSNum) (accessor : JSNum → JSNum) : Option JSNum :=
  let kept := (values.map accessor).filter (fun value => !value.isNaN)
  if kept.length = 0 then none
  else some (kept.foldl (fun sum value => sum + value) (JSNum.fin 0) / JSNum.fin kept.length)

/-- Source `kernelDensityEstimator(kernel, X)(V)`:
`X.map((x) => [x, d3.mean(V, (v) => kernel(x - v))])`. -/
def kernelDensityEstimator (kernel : JSNum → JSNum) (X : List JSNum) (V : List JSNum) :
    List (JSNum × Option JSNum) :=
  X.map (fun x => (x, d3mean V (fun v => kernel (x - v))))

/-- Source `kernelEpanechnikov(k)(v)`:
`Math.abs((v /= k)) <= 1 ? (0.75 * (1 - v * v)) / k : 0`, where `v` has been
reassigned to `v / k` before the comparison. -/
def kernelEpanechnikov (k : JSNum) (v : JSNum) : JSNum :=
  let v := v / k
  if JSNum.le (JSNum.abs v) (JSNum.fin 1) then
    (JSNum.fin 0.75 * (JSNum.fin 1 - v * v)) / k
  else JSNum.fin 0

/-! ## The word-cloud particles (lines 817-871) -/

/-- The part of a word record that the simulation reads: `word.size`
(`Math.max(30, ...)` at line 876). -/
structure Word where
  size : JSNum
  deriving DecidableEq, Repr

/-- The fields of a `WordParticle` object.  `isDragging`, `dragOffsetX` and
`dragOffsetY` are only assigned by the drag handlers: before the first drag they are
`undefined`, represented by `false` and by `NaN` (the value `undefined` takes in
arithmetic). -/
structure WordParticle where
  word : Word
  x : JSNum
  y : JSNum
  vx : JSNum
  vy : JSNum
  initialX : JSNum
  initialY : JSNum
  mass : JSNum
  isDragging : Bool
  dragOffsetX : JSNum
  dragOffsetY : JSNum
  deriving DecidableEq, Repr

namespace WordParticle

/-- Source `constructor(word, x, y)` (lines 818-827); `r1` and `r2` are the two values
returned by `Math.random()`. -/
def new (word : Word) (x y : JSNum) (r1 r2 : JSNum) : WordParticle :=
  { word := word
    x := x
    y := y
    vx := (r1 - JSNum.fin 0.5) * JSNum.fin 2
    vy := (r2 - JSNum.fin 0.5) * JSNum.fin 2
    initialX := x
    initialY := y
    mass := word.size
    isDragging := false
    dragOffsetX := JSNum.nan
    dragOffsetY := JSNum.nan }

/-- The body of the `particles.forEach((other) => ...)` callback of `update`
(lines 834-850) for an `other` that is not `this`. -/
def interact (sqrt : ℚ → ℚ) (this other : WordParticle) : WordParticle :=
  let dx := other.x - this.x
  let dy := other.y - this.y
  let distance := JSNum.sqrtWith sqrt (dx * dx + dy * dy)
  if JSNum.lt distance (JSNum.fin 3) then this
  else
    let combinedSize := this.mass + other.word.size
    let repulsion := (combinedSize * JSNum.fin 800) / (distance * distance)
    let vx := this.vx - ((dx / distance) * repulsion) / this.mass
    let vy := this.vy - ((dy / distance) * repulsion) / this.mass
    let attraction := distance * JSNum.fin 0.00003
    { this with
      vx := vx + (dx / distance) * attraction
      vy := vy + (dy / distance) * attraction }

/-- The loop `particles.forEach(...)` of `update` (lines 831-851) run by the particle
at index `i` of `particles`: the callback returns at once for `other === this`. -/
def forces (sqrt : ℚ → ℚ) (particles : List WordParticle) (i : Nat)
    (this : WordParticle) : WordParticle :=
  particles.enum.foldl
    (fun acc jo => if jo.1 = i then acc else interact sqrt acc jo.2) this

/-- The force towards the centre (lines 853-862). -/
def centering (sqrt : ℚ → ℚ) (this : WordParticle) : WordParticle :=
  let centerX := JSNum.fin 0
  let centerY := JSNum.fin 0
  let toCenterX := centerX - this.x
  let toCenterY := centerY - this.y
  let distanceToCenter := JSNum.sqrtWith sqrt (toCenterX * toCenterX + toCenterY * toCenterY)
  { this with
    vx := this.vx + (toCenterX / distanceToCenter) * JSNum.fin 0.04
    vy := this.vy + (toCenterY / distanceToCenter) * JSNum.fin 0.04 }

/-- The damping step (lines 864-866). -/
def damping (this : WordParticle) : WordParticle :=
  { this with
    vx := this.vx * JSNum.fin 0.99
    vy := this.vy * JSNum.fin 0.99 }

/-- The position update (lines 868-870). -/
def integrate (this : WordParticle) : WordParticle :=
  { this with
    x := this.x + this.vx
    y := this.y + this.vy }

/-- Source `update(particles)` (lines 829-871), as run by one particle `this` that sits
at index `i` of `particles`; the result is the new state of `this`. -/
def updateThis (sqrt : ℚ → ℚ) (particles : List WordParticle) (i : Nat)
    (this : WordParticle) : WordParticle :=
  integrate (damping (centering sqrt (forces sqrt particles i this)))

/-- Source `update(particles)` called on the particle at index `i`: the object is
mutated in place, the other particles are left as they are. -/
def update (sqrt : ℚ → ℚ) (particles : List WordParticle) (i : Nat) : List WordParticle :=
  match particles.get? i with
  | none => particles
  | some this => particles.set i (updateThis sqrt particles i this)

end WordParticle

/-- The particle updates of one `animate` frame (lines 944-946):
`words.forEach((word) => word.particle.update(words.map((w) => w.particle)))`. -/
def animate (sqrt : ℚ → ℚ) (particles : List WordParticle) : List WordParticle :=
  (List.range particles.length).foldl (fun ps i => WordParticle.update sqrt ps i) particles

/-! ## Drag handlers (lines 1033-1057) -/

/-- Source `dragstarted(event)` on the particle of the grabbed word; `ex`, `ey` are
`event.x`, `event.y`. -/
def dragstarted (ex ey : JSNum) (p : WordParticle) : WordParticle :=
  { p with
    isDragging := true
    dragOffsetX := p.x - ex
    dragOffsetY := p.y - ey }

/-- Source `dragged(event, d)` on `d.particle`. -/
def dragged (ex ey : JSNum) (p : WordParticle) : WordParticle :=
  let targetX := ex + p.dragOffsetX
  let targetY := ey + p.dragOffsetY
  let vx := (targetX - p.x) * JSNum.fin 0.3
  let vy := (targetY - p.y) * JSNum.fin 0.3
  { p with
    vx := vx
    vy := vy
    x := p.x + vx
    y := p.y + vy }

/-- Source `dragended(event, d)` on `d.particle`. -/
def dragended (p : WordParticle) : WordParticle :=
  { p with
    isDragging := false
    vx := p.vx * JSNum.fin 2
    vy := p.vy * JSNum.fin 2 }

/-! ## A rational square root for concrete evaluations -/

/-- Newton iteration for the integer square root, with explicit fuel. -/
def natSqrtAux : Nat → Nat → Nat → Nat
  | 0, _, g => g
  | fuel + 1, n, g =>
      let g2 := (g + n / g) / 2
      if g2 < g then natSqrtAux fuel n g2 else g

/-- Integer square root (floor). -/
def natSqrt (n : Nat) : Nat := if n ≤ 1 then n else natSqrtAux 200 n n

/-- A square root on the rationals that is exact on squares of rationals: the values of
`Math.sqrt` at the points where the concrete evaluations below call it. -/
def sqrtQ (q : ℚ) : ℚ := (natSqrt q.num.toNat : ℚ) / (natSqrt q.den : ℚ)

/-! ## Notions used to state the properties -/

/-- The function `sqrt` returns the exact non-negative square root at `s`: there
`Math.sqrt(s)` is the Euclidean length of a vector with squared length `s`. -/
def ExactSqrtAt (sqrt : ℚ → ℚ) (s : ℚ) : Prop :=
  0 ≤ sqrt s ∧ sqrt s * sqrt s = s

namespace WordParticle

/-- The velocity change that the pair `(this, other)` stands for in one `update` of
`this`: nothing below distance 3, else the repulsion term (subtracted) plus the
attraction term. -/
def pairContribution (sqrt : ℚ → ℚ) (this other : WordParticle) : JSNum × JSNum :=
  let dx := other.x - this.x
  let dy := other.y - this.y
  let distance := JSNum.sqrtWith sqrt (dx * dx + dy * dy)
  if JSNum.lt distance (JSNum.fin 3) then (JSNum.fin 0, JSNum.fin 0)
  else
    let combinedSize := this.mass + other.word.size
    let repulsion := (combinedSize * JSNum.fin 800) / (distance * distance)
    let attraction := distance * JSNum.fin 0.00003
    (-(((dx / distance) * repulsion) / this.mass) + (dx / distance) * attraction,
     -(((dy / distance) * repulsion) / this.mass) + (dy / distance) * attraction)

/-- The velocity change of the force towards the centre for a particle at `this.x`,
`this.y`. -/
def centerContribution (sqrt : ℚ → ℚ) (this : WordParticle) : JSNum × JSNum :=
  let toCenterX := JSNum.fin 0 - this.x
  let toCenterY := JSNum.fin 0 - this.y
  let distanceToCenter := JSNum.sqrtWith sqrt (toCenterX * toCenterX + toCenterY * toCenterY)
  ((toCenterX / distanceToCenter) * JSNum.fin 0.04,
   (toCenterY / distanceToCenter) * JSNum.fin 0.04)

end WordParticle

/-- The evaluation points of the end-to-end scenario. -/
def scenarioPoints : List JSNum :=
  [JSNum.fin 0, JSNum.fin 1, JSNum.fin 5, JSNum.fin 9, JSNum.fin 10]

/-- The samples of the end-to-end scenario. -/
def scenarioSamples : List JSNum :=
  [JSNum.fin 1, JSNum.fin 1, JSNum.fin 1, JSNum.fin 5, JSNum.fin 5, JSNum.fin 9]

/-- The output of the end-to-end scenario has the finite densities `d0`, `d1`, `d5`,
`d9`, `d10` at the evaluation points 0, 1, 5, 9, 10. -/
def ScenarioDensities (d0 d1 d5 d9 d10 : ℚ) : Prop :=
  kernelDensityEstimator (kernelEpanechnikov (JSNum.fin 2)) scenarioPoints scenarioSamples
    = [(JSNum.fin 0, some (JSNum.fin d0)), (JSNum.fin 1, some (JSNum.fin d1)),
       (JSNum.fin 5, some (JSNum.fin d5)), (JSNum.fin 9, some (JSNum.fin d9)),
       (JSNum.fin 10, some (JSNum.fin d10))]

/-! ## Concrete particles for the evaluations -/

/-- A particle at `(x, y)` with velocity `(vx, vy)`, built from a word of size 30. -/
def particleAt (x y vx vy : ℚ) : WordParticle :=
  { word := { size := JSNum.fin 30 }
    x := JSNum.fin x
    y := JSNum.fin y
    vx := JSNum.fin vx
    vy := JSNum.fin vy
    initialX := JSNum.fin x
    initialY := JSNum.fin y
    mass := JSNum.fin 30
    isDragging := false
    dragOffsetX := JSNum.nan
    dragOffsetY := JSNum.nan }

/-- A particle at rest at `(3, 4)` that has been grabbed at its own position
(`dragstarted` with the pointer at `(3, 4)`). -/
def grabbedParticle : WordParticle :=
  dragstarted (JSNum.fin 3) (JSNum.fin 4) (particleAt 3 4 0 0)

/-- A particle exactly at the origin, with velocity `(1, 1)`. -/
def originParticle : WordParticle := particleAt 0 0 1 1

/-! ## Further notions: word sizes, fixed fields, distances, the snapshot tick -/

/-- JavaScript `Math.max(a, b)`: `NaN` as soon as one argument is `NaN`. -/
def JSNum.max : JSNum → JSNum → JSNum
  | JSNum.nan, _ => JSNum.nan
  | _, JSNum.nan => JSNum.nan
  | JSNum.fin a, JSNum.fin b => JSNum.fin (Max.max a b)
  | JSNum.posInf, _ => JSNum.posInf
  | _, JSNum.posInf => JSNum.posInf
  | JSNum.negInf, b => b
  | a, JSNum.negInf => a

/-- Source `words` (lines 874-880), reduced to the field the simulation reads: one word
per entry `[text, size]` of `genreCounts`, of size
`Math.max(30, (size / totalResponses) * 100 * 5)`. -/
def words (genreCounts : List JSNum) (totalResponses : JSNum) : List Word :=
  genreCounts.map (fun size =>
    { size := JSNum.max (JSNum.fin 30)
        ((size / totalResponses) * JSNum.fin 100 * JSNum.fin 5) })

/-- The fields of a particle other than its position and velocity. -/
def WordParticle.fixedPart (p : WordParticle) :
    Word × JSNum × JSNum × JSNum × Bool × JSNum × JSNum :=
  (p.word, p.mass, p.initialX, p.initialY, p.isDragging, p.dragOffsetX, p.dragOffsetY)

/-- The `distance` computed at lines 834-836 of `update` for `this` and `other`. -/
def WordParticle.pairDistance (sqrt : ℚ → ℚ) (this other : WordParticle) : JSNum :=
  let dx := other.x - this.x
  let dy := other.y - this.y
  JSNum.sqrtWith sqrt (dx * dx + dy * dy)

/-- The snapshot tick of the spec (section 5): every particle is updated from the
positions of the previous tick, and the new states are committed after the whole pass. -/
def snapshotTick (sqrt : ℚ → ℚ) (particles : List WordParticle) : List WordParticle :=
  particles.enum.map (fun ip => WordParticle.updateThis sqrt particles ip.1 ip.2)

/-! ## The density estimator with rounded arithmetic -/

/-- The power `2 ^ e` for an integer exponent. -/
def pow2 (e : ℤ) : ℚ :=
  if 0 ≤ e then ((2 ^ e.toNat : ℕ) : ℚ) else 1 / ((2 ^ (-e).toNat : ℕ) : ℚ)

/-- Halving count with explicit fuel: `floor (log2 n)` for `1 <= n < 2 ^ fuel`. -/
def log2Aux : Nat → Nat → Nat
  | 0, _ => 0
  | fuel + 1, n => if n < 2 then 0 else log2Aux fuel (n / 2) + 1

/-- The integer `floor (log2 n)` for `1 <= n < 2 ^ 4096`. -/
def natLog2 (n : Nat) : Nat := log2Aux 4096 n

/-- The IEEE 754 binary64 value nearest to `q`, ties to the even significand (the
rounding of JavaScript's `+`, `-`, `*`, `/` and of decimal literals).  The exponent
range is not bounded: overflow and subnormal numbers are not modelled. -/
def roundToDouble (q : ℚ) : ℚ :=
  if q = 0 then 0
  else
    let n := q.num.natAbs
    let d := q.den
    let l0 : ℤ := (natLog2 n : ℤ) - (natLog2 d : ℤ)
    let l : ℤ := if (n : ℚ) / (d : ℚ) < pow2 l0 then l0 - 1 else l0
    let e : ℤ := l - 52
    let N : ℕ := if 0 ≤ e then n else n * 2 ^ (-e).toNat
    let D : ℕ := if 0 ≤ e then d * 2 ^ e.toNat else d
    let f : ℕ := N / D
    let m : ℕ :=
      if 2 * (N % D) < D then f
      else if D < 2 * (N % D) then f + 1
      else if f % 2 = 0 then f else f + 1
    if 0 < q then (m : ℚ) * pow2 e else -((m : ℚ) * pow2 e)

/-- The result of an arithmetic operation after rounding with `r`: finite values are
rounded, the non-finite ones are kept. -/
def JSNum.rounded (r : ℚ → ℚ) : JSNum → JSNum
  | JSNum.fin q => JSNum.fin (r q)
  | a => a

/-- Source `kernelEpanechnikov(k)(v)` with the result of each of its five arithmetic
operations rounded by `r`. -/
def kernelEpanechnikovRounded (r : ℚ → ℚ) (k : JSNum) (v : JSNum) : JSNum :=
  let v := JSNum.rounded r (v / k)
  if JSNum.le (JSNum.abs v) (JSNum.fin 1) then
    JSNum.rounded r
      (JSNum.rounded r
        (JSNum.fin 0.75 * JSNum.rounded r (JSNum.fin 1 - JSNum.rounded r (v * v))) / k)
  else JSNum.fin 0

/-- Modelled from the spec: `d3.mean(values, accessor)` as in `d3mean`, with the running
sum `sum += value` and the final division `sum / count` rounded by `r`. -/
def d3meanRounded (r : ℚ → ℚ) (values : List JSNum) (accessor : JSNum → JSNum) :
    Option JSNum :=
  let kept := (values.map accessor).filter (fun value => !value.isNaN)
  if kept.length = 0 then none
  else some (JSNum.rounded r
    (kept.foldl (fun sum value => JSNum.rounded r (sum + value)) (JSNum.fin 0)
      / JSNum.fin kept.length))

/-- Source `kernelDensityEstimator(kernel, X)(V)` with the subtraction `x - v` and the
operations of `d3.mean` rounded by `r`. -/
def kernelDensityEstimatorRounded (r : ℚ → ℚ) (kernel : JSNum → JSNum) (X : List JSNum)
    (V : List JSNum) : List (JSNum × Option JSNum) :=
  X.map (fun x => (x, d3meanRounded r V (fun v => kernel (JSNum.rounded r (x - v)))))

/-! ## Arithmetic of `JSNum` on finite values -/

namespace JSNum

@[simp] theorem fin_add_fin (a b : ℚ) : fin a + fin b = fin (a + b) := rfl

@[simp] theorem fin_sub_fin (a b : ℚ) : fin a - fin b = fin (a - b) := by
  show add (fin a) (neg (fin b)) = fin (a - b)
  simp [add, neg, sub_eq_add_neg]

@[simp] theorem fin_mul_fin (a b : ℚ) : fin a * fin b = fin (a * b) := rfl

theorem fin_div_fin (a b : ℚ) (hb : b ≠ 0) : fin a / fin b = fin (a / b) := by
  show div (fin a) (fin b) = fin (a / b)
  simp [div, hb]

theorem fin_div_zero (a : ℚ) :
    fin a / fin 0 = if a = 0 then nan else if 0 < a then posInf else negInf := by
  show div (fin a) (fin 0) = _
  simp [div]

@[simp] theorem abs_fin (a : ℚ) : abs (fin a) = fin |a| := rfl

@[simp] theorem le_fin_fin (a b : ℚ) : le (fin a) (fin b) = decide (a ≤ b) := rfl

@[simp] theorem lt_fin_fin (a b : ℚ) : lt (fin a) (fin b) = decide (a < b) := rfl

theorem sqrtWith_fin (sqrt : ℚ → ℚ) (a : ℚ) (ha : 0 ≤ a) :
    sqrtWith sqrt (fin a) = fin (sqrt a) := by
  simp [sqrtWith, not_lt.mpr ha]

@[simp] theorem isNaN_fin (a : ℚ) : isNaN (fin a) = false := rfl

theorem foldl_add_fin (l : List ℚ) (a : ℚ) :
    (l.map fin).foldl (fun sum value => sum + value) (fin a) = fin (a + l.sum) := by
  induction l generalizing a with
  | nil => simp
  | cons b l ih => simp [ih, add_assoc]

theorem filter_isNaN_map_fin (l : List ℚ) :
    (l.map fin).filter (fun value => !value.isNaN) = l.map fin := by
  induction l with
  | nil => rfl
  | cons b l ih => simp [List.filter, ih]

end JSNum

/-- The mean computed by `d3.mean` over finite values that the accessor maps to finite
values is the exact arithmetic mean. -/
theorem d3mean_fin (V : List ℚ) (hV : V ≠ []) (accessor : JSNum → JSNum) (f : ℚ → ℚ)
    (hf : ∀ s, accessor (JSNum.fin s) = JSNum.fin (f s)) :
    d3mean (V.map JSNum.fin) accessor
      = some (JSNum.fin ((V.map f).sum / (V.length : ℚ))) := by
  have hmap : (V.map JSNum.fin).map accessor = (V.map f).map JSNum.fin := by
    simp [List.map_map, Function.comp_def, hf]
  have hlen : V.length ≠ 0 := by
    intro h
    exact hV (List.length_eq_zero.mp h)
  have hq : ((V.length : ℕ) : ℚ) ≠ 0 := by exact_mod_cast hlen
  unfold d3mean
  simp only [hmap, JSNum.filter_isNaN_map_fin, List.length_map, hlen, if_false,
    JSNum.foldl_add_fin, zero_add]
  rw [JSNum.fin_div_fin _ _ hq]

/-- On finite arguments with a positive bandwidth the kernel is finite and is the
Epanechnikov parabola on its support. -/
theorem kernelEpanechnikov_fin (k v : ℚ) (hk : 0 < k) :
    kernelEpanechnikov (JSNum.fin k) (JSNum.fin v)
      = JSNum.fin (if |v / k| ≤ 1 then 0.75 * (1 - (v / k) ^ 2) / k else 0) := by
  have hk0 : k ≠ 0 := ne_of_gt hk
  unfold kernelEpanechnikov
  simp only [JSNum.fin_div_fin _ _ hk0, JSNum.abs_fin, JSNum.le_fin_fin, JSNum.fin_mul_fin,
    JSNum.fin_sub_fin]
  by_cases h : |v / k| ≤ 1
  · simp [h, JSNum.fin_div_fin _ _ hk0, pow_two]
  · simp [h]

/-! ## Claims on the density estimator -/

/-- C1: for every kernel that maps reals to reals, every sequence of evaluation points
`X` and every non-empty sample sequence `V`, `kernelDensityEstimator(kernel, X)(V)` is,
in the order of `X` and with the length of `X`, the sequence of pairs
`(X[i], (1/|V|) * sum over s in V of kernel(X[i] - s))`. -/
theorem kernelDensityEstimator_eq_mean (kernel : JSNum → JSNum) (kq : ℚ → ℚ)
    (hkernel : ∀ v, kernel (JSNum.fin v) = JSNum.fin (kq v))
    (X V : List ℚ) (hV : V ≠ []) :
    kernelDensityEstimator kernel (X.map JSNum.fin) (V.map JSNum.fin)
      = X.map (fun x => (JSNum.fin x,
          some (JSNum.fin ((1 / (V.length : ℚ)) * (V.map (fun s => kq (x - s))).sum))))
    ∧ (kernelDensityEstimator kernel (X.map JSNum.fin) (V.map JSNum.fin)).length
      = X.length := by
  have key : kernelDensityEstimator kernel (X.map JSNum.fin) (V.map JSNum.fin)
      = X.map (fun x => (JSNum.fin x,
          some (JSNum.fin ((1 / (V.length : ℚ)) * (V.map (fun s => kq (x - s))).sum)))) := by
    unfold kernelDensityEstimator
    rw [List.map_map]
    apply List.map_congr_left
    intro x _
    simp only [Function.comp_apply]
    rw [d3mean_fin V hV (fun v => kernel (JSNum.fin x - v)) (fun s => kq (x - s))
      (fun s => by simp [hkernel])]
    congr 3
    ring
  exact ⟨key, by rw [key, List.length_map]⟩

/-- Witness for C1: the identity kernel on three evaluation points and two samples. -/
theorem kernelDensityEstimator_eq_mean_witness :
    ([1, 3] : List ℚ) ≠ [] ∧
    (kernelDensityEstimator (fun v => v) (([0, 1, 5] : List ℚ).map JSNum.fin)
        (([1, 3] : List ℚ).map JSNum.fin)
      = ([0, 1, 5] : List ℚ).map (fun x => (JSNum.fin x,
          some (JSNum.fin ((1 / ((([1, 3] : List ℚ).length : ℕ) : ℚ))
            * (([1, 3] : List ℚ).map (fun s => (fun v : ℚ => v) (x - s))).sum))))
    ∧ (kernelDensityEstimator (fun v => v) (([0, 1, 5] : List ℚ).map JSNum.fin)
        (([1, 3] : List ℚ).map JSNum.fin)).length = ([0, 1, 5] : List ℚ).length) :=
  ⟨by decide, kernelDensityEstimator_eq_mean (fun v => v) (fun v => v) (fun _ => rfl)
    [0, 1, 5] [1, 3] (by decide)⟩

/-- C2: for every bandwidth `k > 0` and every real `v`, `kernelEpanechnikov(k)(v)` is
`0.75 * (1 - (v/k)^2) / k` when `|v/k| <= 1`, and `0` otherwise. -/
theorem kernelEpanechnikov_spec (k v : ℚ) (hk : 0 < k) :
    (|v / k| ≤ 1 → kernelEpanechnikov (JSNum.fin k) (JSNum.fin v)
        = JSNum.fin (0.75 * (1 - (v / k) ^ 2) / k))
    ∧ (¬ |v / k| ≤ 1 → kernelEpanechnikov (JSNum.fin k) (JSNum.fin v) = JSNum.fin 0) := by
  rw [kernelEpanechnikov_fin k v hk]
  constructor
  · intro h
    rw [if_pos h]
  · intro h
    rw [if_neg h]

/-- Witness for C2: bandwidth 2 at `v = 1` (inside the support). -/
theorem kernelEpanechnikov_spec_witness :
    (0 : ℚ) < 2 ∧
    ((|(1 : ℚ) / 2| ≤ 1 → kernelEpanechnikov (JSNum.fin 2) (JSNum.fin 1)
        = JSNum.fin (0.75 * (1 - ((1 : ℚ) / 2) ^ 2) / 2))
    ∧ (¬ |(1 : ℚ) / 2| ≤ 1 → kernelEpanechnikov (JSNum.fin 2) (JSNum.fin 1) = JSNum.fin 0)) :=
  ⟨by norm_num, kernelEpanechnikov_spec 2 1 (by norm_num)⟩

/-- The densities of the end-to-end scenario, evaluated. -/
theorem scenario_values : ScenarioDensities (9 / 64) (3 / 16) (1 / 8) (1 / 16) (3 / 64) := by
  unfold ScenarioDensities scenarioPoints scenarioSamples
  decide!

/-- C3, as stated, fails: in the end-to-end scenario (samples `[1,1,1,5,5,9]`, points
`[0,1,5,9,10]`, Epanechnikov kernel with `k = 2`) the densities at `x = 1` and `x = 5`
are not both above each of the densities at `x = 0, 9, 10`: the density at `x = 5` is
`1/8`, below the density `9/64` at `x = 0`. -/
theorem scenario_claim_fails :
    ¬ ∃ d0 d1 d5 d9 d10 : ℚ, ScenarioDensities d0 d1 d5 d9 d10
        ∧ d0 < d1 ∧ d9 < d1 ∧ d10 < d1 ∧ d0 < d5 ∧ d9 < d5 ∧ d10 < d5 := by
  rintro ⟨d0, d1, d5, d9, d10, h, -, -, -, h05, -, -⟩
  have hv := scenario_values
  unfold ScenarioDensities at h hv
  rw [hv] at h
  simp only [List.cons.injEq, Prod.mk.injEq, Option.some.injEq, JSNum.fin.injEq, true_and,
    and_true] at h
  obtain ⟨h0, -, h5, -, -⟩ := h
  rw [← h0, ← h5] at h05
  norm_num at h05

/-- C3, amended: in the end-to-end scenario the densities at `x = 0, 1, 5, 9, 10` are
exactly `9/64, 3/16, 1/8, 1/16, 3/64`; the density at `x = 1` is strictly greater than
the four others, the density at `x = 5` is strictly greater than those at `x = 9` and
`x = 10`, and strictly smaller than the one at `x = 0`. -/
theorem scenario_densities :
    ∃ d0 d1 d5 d9 d10 : ℚ, ScenarioDensities d0 d1 d5 d9 d10
      ∧ d0 = 9 / 64 ∧ d1 = 3 / 16 ∧ d5 = 1 / 8 ∧ d9 = 1 / 16 ∧ d10 = 3 / 64
      ∧ d0 < d1 ∧ d5 < d1 ∧ d9 < d1 ∧ d10 < d1
      ∧ d9 < d5 ∧ d10 < d5 ∧ d5 < d0 :=
  ⟨9 / 64, 3 / 16, 1 / 8, 1 / 16, 3 / 64, scenario_values, rfl, rfl, rfl, rfl, rfl,
    by norm_num, by norm_num, by norm_num, by norm_num, by norm_num, by norm_num,
    by norm_num⟩

/-- C4, evaluated on the code: with an empty sample sequence the estimator returns a
result (no error) in which every density is `undefined`, not `0`: the empty case of
`d3.mean` is passed on unguarded. -/
theorem kernelDensityEstimator_empty_counterexample :
    kernelDensityEstimator (kernelEpanechnikov (JSNum.fin 2)) [JSNum.fin 0, JSNum.fin 1] []
      = [(JSNum.fin 0, none), (JSNum.fin 1, none)]
    ∧ ¬ ∀ e ∈ kernelDensityEstimator (kernelEpanechnikov (JSNum.fin 2))
          [JSNum.fin 0, JSNum.fin 1] [], e.2 = some (JSNum.fin 0) := by
  have h : kernelDensityEstimator (kernelEpanechnikov (JSNum.fin 2))
      [JSNum.fin 0, JSNum.fin 1] [] = [(JSNum.fin 0, none), (JSNum.fin 1, none)] := by
    decide
  refine ⟨h, ?_⟩
  rw [h]
  intro hall
  have := hall (JSNum.fin 0, none) (List.mem_cons_self _ _)
  simp at this

/-- The same evaluation for every kernel and every sequence of evaluation points `X`:
with an empty sample sequence the estimator returns one pair per point of `X`, in order,
whose density is `undefined`. -/
theorem kernelDensityEstimator_empty (kernel : JSNum → JSNum) (X : List JSNum) :
    kernelDensityEstimator kernel X [] = X.map (fun x => (x, none)) := by
  unfold kernelDensityEstimator d3mean
  simp

/-! ## Algebra of `JSNum` and the force loop as a sum -/

namespace JSNum
theorem add_assoc_js (a b c : JSNum) : a + b + c = a + (b + c) := by
  cases a <;> cases b <;> cases c <;>
    first
      | rfl
      | (show fin _ = fin _; rw [add_assoc])

theorem add_fin_zero (a : JSNum) : a + fin 0 = a := by
  cases a with
  | fin q => show fin (q + 0) = fin q; rw [add_zero]
  | posInf => rfl
  | negInf => rfl
  | nan => rfl

theorem mul_comm_js (a b : JSNum) : a * b = b * a := by
  cases a <;> cases b <;>
    first
      | rfl
      | (show fin _ = fin _; rw [mul_comm])

theorem sub_eq_add_neg_js (a b : JSNum) : a - b = a + -b := rfl
end JSNum

namespace WordParticle

theorem interact_eq (sqrt : ℚ → ℚ) (this other : WordParticle) :
    interact sqrt this other
      = { this with
          vx := this.vx + (pairContribution sqrt this other).1
          vy := this.vy + (pairContribution sqrt this other).2 } := by
  unfold interact pairContribution
  simp only
  split
  · simp [JSNum.add_fin_zero]
  · simp only [JSNum.sub_eq_add_neg_js, JSNum.add_assoc_js]

theorem pairContribution_congr (sqrt : ℚ → ℚ) (p q other : WordParticle)
    (hx : p.x = q.x) (hy : p.y = q.y) (hm : p.mass = q.mass) :
    pairContribution sqrt p other = pairContribution sqrt q other := by
  unfold pairContribution
  rw [hx, hy, hm]

end WordParticle

namespace WordParticle

theorem foldl_skip_enumFrom_lt {α β : Type} (f : β → α → β) (i : Nat) :
    ∀ (l : List α) (n : Nat) (acc : β), i < n →
      (l.enumFrom n).foldl (fun acc jo => if jo.1 = i then acc else f acc jo.2) acc
        = l.foldl f acc := by
  intro l
  induction l with
  | nil => intro n acc _; rfl
  | cons a l ih =>
    intro n acc h
    have hne : ¬ n = i := by omega
    simp only [List.enumFrom_cons, List.foldl_cons, if_neg hne]
    exact ih (n + 1) (f acc a) (by omega)

theorem foldl_skip_enumFrom {α β : Type} (f : β → α → β) :
    ∀ (l : List α) (n k : Nat) (acc : β),
      (l.enumFrom n).foldl (fun acc jo => if jo.1 = n + k then acc else f acc jo.2) acc
        = (l.eraseIdx k).foldl f acc := by
  intro l
  induction l with
  | nil => intro n k acc; rfl
  | cons a l ih =>
    intro n k acc
    cases k with
    | zero =>
      simp only [List.enumFrom_cons, List.foldl_cons, Nat.add_zero, if_true,
        List.eraseIdx_cons_zero]
      exact foldl_skip_enumFrom_lt f n l (n + 1) acc (by omega)
    | succ k =>
      have hne : ¬ n = n + (k + 1) := by omega
      simp only [List.enumFrom_cons, List.foldl_cons, if_neg hne, List.eraseIdx_cons_succ]
      have := ih (n + 1) k (f acc a)
      rw [show n + 1 + k = n + (k + 1) by omega] at this
      exact this

theorem forces_eq_foldl (sqrt : ℚ → ℚ) (particles : List WordParticle) (i : Nat)
    (this : WordParticle) :
    forces sqrt particles i this = (particles.eraseIdx i).foldl (interact sqrt) this := by
  unfold forces List.enum
  have := foldl_skip_enumFrom (interact sqrt) particles 0 i this
  rw [Nat.zero_add] at this
  exact this

theorem foldl_interact (sqrt : ℚ → ℚ) :
    ∀ (others : List WordParticle) (this : WordParticle),
      others.foldl (interact sqrt) this
        = { this with
            vx := this.vx + (others.map (fun q => (pairContribution sqrt this q).1)).sum
            vy := this.vy + (others.map (fun q => (pairContribution sqrt this q).2)).sum } := by
  intro others
  induction others with
  | nil =>
    intro this
    show this = { this with vx := this.vx + JSNum.fin 0, vy := this.vy + JSNum.fin 0 }
    rw [JSNum.add_fin_zero, JSNum.add_fin_zero]
  | cons q others ih =>
    intro this
    rw [List.foldl_cons, ih, interact_eq]
    have hc : ∀ o, pairContribution sqrt
        { this with
          vx := this.vx + (pairContribution sqrt this q).1
          vy := this.vy + (pairContribution sqrt this q).2 } o
        = pairContribution sqrt this o :=
      fun o => pairContribution_congr sqrt _ this o rfl rfl rfl
    simp only [hc, List.map_cons, List.sum_cons, JSNum.add_assoc_js]

theorem updateThis_eq (sqrt : ℚ → ℚ) (particles : List WordParticle) (i : Nat)
    (this : WordParticle) :
    (updateThis sqrt particles i this).vx
        = JSNum.fin 0.99 * (this.vx
            + ((particles.eraseIdx i).map (fun q => (pairContribution sqrt this q).1)).sum
            + (centerContribution sqrt this).1)
    ∧ (updateThis sqrt particles i this).vy
        = JSNum.fin 0.99 * (this.vy
            + ((particles.eraseIdx i).map (fun q => (pairContribution sqrt this q).2)).sum
            + (centerContribution sqrt this).2)
    ∧ (updateThis sqrt particles i this).x = this.x + (updateThis sqrt particles i this).vx
    ∧ (updateThis sqrt particles i this).y = this.y + (updateThis sqrt particles i this).vy := by
  unfold updateThis
  rw [forces_eq_foldl, foldl_interact]
  refine ⟨?_, ?_, rfl, rfl⟩
  · rw [JSNum.mul_comm_js]; rfl
  · rw [JSNum.mul_comm_js]; rfl

end WordParticle

/-! ## Claims on `update` -/

/-- C5, evaluated on the code: a particle that is being dragged (`isDragging` is true)
and is alone in the system still gets the full physics step in one `animate` frame: the
centring force, the damping and the position update change its velocity and position. -/
theorem animate_moves_dragging_particle :
    grabbedParticle.isDragging = true
    ∧ animate sqrtQ [grabbedParticle]
      = [{ grabbedParticle with
           vx := JSNum.fin (-0.02376)
           vy := JSNum.fin (-0.03168)
           x := JSNum.fin 2.97624
           y := JSNum.fin 3.96832 }] := by
  decide!

/-- C6: when the Euclidean distance between `p` and another particle `q` is strictly
below 3, the pairwise step of `p.update` for `q` leaves `p` as it was: the pair is
skipped and adds nothing to the velocity. -/
theorem interact_skips_below_three (sqrt : ℚ → ℚ) (p q : WordParticle)
    (px py qx qy : ℚ)
    (hpx : p.x = JSNum.fin px) (hpy : p.y = JSNum.fin py)
    (hqx : q.x = JSNum.fin qx) (hqy : q.y = JSNum.fin qy)
    (hsqrt : ExactSqrtAt sqrt ((qx - px) * (qx - px) + (qy - py) * (qy - py)))
    (hlt : (qx - px) * (qx - px) + (qy - py) * (qy - py) < 3 * 3) :
    WordParticle.interact sqrt p q = p := by
  obtain ⟨h0, hsq⟩ := hsqrt
  have hs0 : 0 ≤ (qx - px) * (qx - px) + (qy - py) * (qy - py) := by
    rw [← hsq]; exact mul_nonneg h0 h0
  have hd : sqrt ((qx - px) * (qx - px) + (qy - py) * (qy - py)) < 3 := by
    by_contra hge
    push_neg at hge
    nlinarith
  unfold WordParticle.interact
  simp only [hpx, hpy, hqx, hqy, JSNum.fin_sub_fin, JSNum.fin_mul_fin, JSNum.fin_add_fin,
    JSNum.sqrtWith_fin sqrt _ hs0, JSNum.lt_fin_fin, hd, decide_True, if_true]

/-- Witness for C6: `p` at the origin and `q` at distance 2.999 on the x axis. -/
theorem interact_skips_below_three_witness :
    ExactSqrtAt sqrtQ ((2.999 - 0) * (2.999 - 0) + (0 - 0) * (0 - 0))
    ∧ ((2.999 - 0) * (2.999 - 0) + (0 - 0) * (0 - 0) : ℚ) < 3 * 3
    ∧ WordParticle.interact sqrtQ (particleAt 0 0 1 1) (particleAt 2.999 0 0 0)
        = particleAt 0 0 1 1 :=
  ⟨by unfold ExactSqrtAt; decide!, by norm_num,
    interact_skips_below_three sqrtQ (particleAt 0 0 1 1) (particleAt 2.999 0 0 0)
      0 0 2.999 0 rfl rfl rfl rfl (by unfold ExactSqrtAt; decide!) (by norm_num)⟩

/-- C7: for a particle `p` with mass `pm > 0` and another particle `q` (of size and mass
`qm`) at Euclidean distance `d >= 3`, with `delta = q.position - p.position`, the
pairwise step of `p.update` for `q` changes only `p`'s velocity, by exactly
`-(delta/d) * ((pm + qm) * 800 / d^2) / pm + (delta/d) * (d * 0.00003)`. -/
theorem interact_velocity_change (sqrt : ℚ → ℚ) (p q : WordParticle)
    (px py qx qy pvx pvy pm qm d : ℚ)
    (hpx : p.x = JSNum.fin px) (hpy : p.y = JSNum.fin py)
    (hqx : q.x = JSNum.fin qx) (hqy : q.y = JSNum.fin qy)
    (hvx : p.vx = JSNum.fin pvx) (hvy : p.vy = JSNum.fin pvy)
    (hpm : p.mass = JSNum.fin pm) (hqm : q.mass = JSNum.fin qm)
    (hqsize : q.word.size = q.mass)
    (hmass : 0 < pm)
    (hsqrt : ExactSqrtAt sqrt ((qx - px) * (qx - px) + (qy - py) * (qy - py)))
    (hd : sqrt ((qx - px) * (qx - px) + (qy - py) * (qy - py)) = d)
    (hge : 3 ≤ d) :
    WordParticle.interact sqrt p q
      = { p with
          vx := JSNum.fin (pvx + (-((qx - px) / d) * ((pm + qm) * 800 / d ^ 2) / pm
                  + ((qx - px) / d) * (d * 0.00003)))
          vy := JSNum.fin (pvy + (-((qy - py) / d) * ((pm + qm) * 800 / d ^ 2) / pm
                  + ((qy - py) / d) * (d * 0.00003))) } := by
  obtain ⟨h0, hsq⟩ := hsqrt
  have hs0 : 0 ≤ (qx - px) * (qx - px) + (qy - py) * (qy - py) := by
    rw [← hsq]; exact mul_nonneg h0 h0
  have hd0 : d ≠ 0 := by linarith
  have hdd : d * d ≠ 0 := mul_ne_zero hd0 hd0
  have hm0 : pm ≠ 0 := ne_of_gt hmass
  have hnlt : ¬ d < 3 := not_lt.mpr hge
  unfold WordParticle.interact
  simp only [hpx, hpy, hqx, hqy, hvx, hvy, hpm, hqsize, hqm, JSNum.fin_sub_fin,
    JSNum.fin_mul_fin, JSNum.fin_add_fin, JSNum.sqrtWith_fin sqrt _ hs0, hd,
    JSNum.lt_fin_fin, hnlt, decide_False, JSNum.fin_div_fin _ _ hd0,
    JSNum.fin_div_fin _ _ hdd, JSNum.fin_div_fin _ _ hm0]
  simp only [Bool.false_eq_true, if_false]
  congr 2 <;> ring

/-- Witness for C7: `p` at the origin, `q` at `(3, 4)` (distance 5), both of mass 30. -/
theorem interact_velocity_change_witness :
    (0 : ℚ) < 30
    ∧ (3 : ℚ) ≤ 5
    ∧ WordParticle.interact sqrtQ (particleAt 0 0 1 1) (particleAt 3 4 0 0)
      = { particleAt 0 0 1 1 with
          vx := JSNum.fin (1 + (-((3 - 0) / 5) * ((30 + 30) * 800 / 5 ^ 2) / 30
                  + ((3 - 0) / 5) * (5 * 0.00003)))
          vy := JSNum.fin (1 + (-((4 - 0) / 5) * ((30 + 30) * 800 / 5 ^ 2) / 30
                  + ((4 - 0) / 5) * (5 * 0.00003))) } :=
  ⟨by norm_num, by norm_num,
    interact_velocity_change sqrtQ (particleAt 0 0 1 1) (particleAt 3 4 0 0)
      0 0 3 4 1 1 30 30 5 rfl rfl rfl rfl rfl rfl rfl rfl rfl (by norm_num)
      (by unfold ExactSqrtAt; decide!) (by decide!) (by norm_num)⟩

/-- C8: for a particle away from the origin, with `toCenter = (0,0) - position` and
`d = |toCenter| > 0`, the centring step adds exactly `(toCenter/d) * 0.04` to the
velocity and changes nothing else; the added vector is a positive multiple of
`toCenter` (it points to the origin) and its Euclidean norm is 0.04 whatever `d` is. -/
theorem centering_adds_unit_pull (sqrt : ℚ → ℚ) (p : WordParticle)
    (px py pvx pvy d : ℚ)
    (hpx : p.x = JSNum.fin px) (hpy : p.y = JSNum.fin py)
    (hvx : p.vx = JSNum.fin pvx) (hvy : p.vy = JSNum.fin pvy)
    (hpos : px ≠ 0 ∨ py ≠ 0)
    (hsqrt : ExactSqrtAt sqrt ((0 - px) * (0 - px) + (0 - py) * (0 - py)))
    (hd : sqrt ((0 - px) * (0 - px) + (0 - py) * (0 - py)) = d) :
    0 < d
    ∧ WordParticle.centering sqrt p
      = { p with
          vx := JSNum.fin (pvx + (0 - px) / d * 0.04)
          vy := JSNum.fin (pvy + (0 - py) / d * 0.04) }
    ∧ (0 - px) / d * 0.04 = (0.04 / d) * (0 - px)
    ∧ (0 - py) / d * 0.04 = (0.04 / d) * (0 - py)
    ∧ 0 < 0.04 / d
    ∧ ((0 - px) / d * 0.04) ^ 2 + ((0 - py) / d * 0.04) ^ 2 = 0.04 ^ 2 := by
  obtain ⟨h0, hsq⟩ := hsqrt
  rw [hd] at h0 hsq
  have hs0 : 0 ≤ (0 - px) * (0 - px) + (0 - py) * (0 - py) := by
    rw [← hsq]; exact mul_nonneg h0 h0
  have hspos : 0 < (0 - px) * (0 - px) + (0 - py) * (0 - py) := by
    rcases hpos with h | h
    · have : 0 < px * px := mul_self_pos.mpr h
      nlinarith [mul_self_nonneg py]
    · have : 0 < py * py := mul_self_pos.mpr h
      nlinarith [mul_self_nonneg px]
  have hd0 : d ≠ 0 := by
    intro h
    rw [h] at hsq
    linarith
  have hdpos : 0 < d := lt_of_le_of_ne h0 (Ne.symm hd0)
  refine ⟨hdpos, ?_, by ring, by ring, by positivity, ?_⟩
  · unfold WordParticle.centering
    simp only [hpx, hpy, hvx, hvy, JSNum.fin_sub_fin, JSNum.fin_mul_fin, JSNum.fin_add_fin,
      JSNum.sqrtWith_fin sqrt _ hs0, hd, JSNum.fin_div_fin _ _ hd0]
  · field_simp
    nlinarith [hsq]

/-- Witness for C8: a particle at `(3, 4)`, at distance 5 from the origin. -/
theorem centering_adds_unit_pull_witness :
    ((3 : ℚ) ≠ 0 ∨ (4 : ℚ) ≠ 0)
    ∧ (0 : ℚ) < 5
    ∧ WordParticle.centering sqrtQ (particleAt 3 4 1 1)
      = { particleAt 3 4 1 1 with
          vx := JSNum.fin (1 + (0 - 3) / 5 * 0.04)
          vy := JSNum.fin (1 + (0 - 4) / 5 * 0.04) }
    ∧ ((0 : ℚ) - 3) / 5 * 0.04 = (0.04 / 5) * (0 - 3)
    ∧ ((0 : ℚ) - 4) / 5 * 0.04 = (0.04 / 5) * (0 - 4)
    ∧ (0 : ℚ) < 0.04 / 5
    ∧ (((0 : ℚ) - 3) / 5 * 0.04) ^ 2 + ((0 - 4) / 5 * 0.04) ^ 2 = 0.04 ^ 2 :=
  ⟨Or.inl (by norm_num),
    centering_adds_unit_pull sqrtQ (particleAt 3 4 1 1) 3 4 1 1 5 rfl rfl rfl rfl
      (Or.inl (by norm_num)) (by unfold ExactSqrtAt; decide!) (by decide!)⟩

/-- C9, evaluated on the code: for a particle exactly at the origin the centring step
divides `0` by `0`; velocity and position become `NaN` after `update`. -/
theorem update_at_origin_is_nan :
    WordParticle.centering sqrtQ originParticle
        = { originParticle with vx := JSNum.nan, vy := JSNum.nan }
    ∧ WordParticle.update sqrtQ [originParticle] 0
        = [{ originParticle with
             vx := JSNum.nan, vy := JSNum.nan, x := JSNum.nan, y := JSNum.nan }] := by
  decide!

/-- C10: `update` damps after all forces have been accumulated and moves the particle
after damping: the new velocity is `0.99 * (old velocity + sum of the pairwise
contributions of all other particles + centring contribution)` on both components, and
the new position is the old position plus the new velocity. -/
theorem update_damps_then_integrates (sqrt : ℚ → ℚ) (particles : List WordParticle)
    (i : Nat) (p : WordParticle) (hp : particles.get? i = some p) :
    ∃ p2 : WordParticle, (WordParticle.update sqrt particles i).get? i = some p2
      ∧ p2.vx = JSNum.fin 0.99 * (p.vx
          + ((particles.eraseIdx i).map
              (fun q => (WordParticle.pairContribution sqrt p q).1)).sum
          + (WordParticle.centerContribution sqrt p).1)
      ∧ p2.vy = JSNum.fin 0.99 * (p.vy
          + ((particles.eraseIdx i).map
              (fun q => (WordParticle.pairContribution sqrt p q).2)).sum
          + (WordParticle.centerContribution sqrt p).2)
      ∧ p2.x = p.x + p2.vx
      ∧ p2.y = p.y + p2.vy := by
  have hi : i < particles.length := by
    by_contra h
    rw [List.get?_eq_none.mpr (by omega)] at hp
    exact Option.noConfusion hp
  refine ⟨WordParticle.updateThis sqrt particles i p, ?_,
    WordParticle.updateThis_eq sqrt particles i p⟩
  unfold WordParticle.update
  rw [hp]
  simp [List.getElem?_set, hi]

/-- Witness for C10: the first of two particles, at `(3, 4)` and `(6, 8)`. -/
theorem update_damps_then_integrates_witness :
    [particleAt 3 4 1 1, particleAt 6 8 0 0].get? 0 = some (particleAt 3 4 1 1)
    ∧ ∃ p2 : WordParticle,
      (WordParticle.update sqrtQ [particleAt 3 4 1 1, particleAt 6 8 0 0] 0).get? 0 = some p2
      ∧ p2.vx = JSNum.fin 0.99 * ((particleAt 3 4 1 1).vx
          + (([particleAt 3 4 1 1, particleAt 6 8 0 0].eraseIdx 0).map
              (fun q => (WordParticle.pairContribution sqrtQ (particleAt 3 4 1 1) q).1)).sum
          + (WordParticle.centerContribution sqrtQ (particleAt 3 4 1 1)).1)
      ∧ p2.vy = JSNum.fin 0.99 * ((particleAt 3 4 1 1).vy
          + (([particleAt 3 4 1 1, particleAt 6 8 0 0].eraseIdx 0).map
              (fun q => (WordParticle.pairContribution sqrtQ (particleAt 3 4 1 1) q).2)).sum
          + (WordParticle.centerContribution sqrtQ (particleAt 3 4 1 1)).2)
      ∧ p2.x = (particleAt 3 4 1 1).x + p2.vx
      ∧ p2.y = (particleAt 3 4 1 1).y + p2.vy :=
  ⟨rfl, update_damps_then_integrates sqrtQ [particleAt 3 4 1 1, particleAt 6 8 0 0] 0
    (particleAt 3 4 1 1) rfl⟩

/-! ## Claims on the drag handlers -/

/-- The drag step on finite values: the new position is `0.7 * position + 0.3 * target`. -/
theorem dragged_fin (p : WordParticle) (ex ey ox oy px py : ℚ)
    (hox : p.dragOffsetX = JSNum.fin ox) (hoy : p.dragOffsetY = JSNum.fin oy)
    (hpx : p.x = JSNum.fin px) (hpy : p.y = JSNum.fin py) :
    dragged (JSNum.fin ex) (JSNum.fin ey) p
      = { p with
          vx := JSNum.fin ((ex + ox - px) * 0.3)
          vy := JSNum.fin ((ey + oy - py) * 0.3)
          x := JSNum.fin (px + (ex + ox - px) * 0.3)
          y := JSNum.fin (py + (ey + oy - py) * 0.3) } := by
  unfold dragged
  simp only [hox, hoy, hpx, hpy, JSNum.fin_add_fin, JSNum.fin_sub_fin, JSNum.fin_mul_fin]

/-- C11: for every particle, pointer position and previous velocity, the drag step takes
`target = pointer + dragOffset`, sets the velocity to `(target - position) * 0.3` with
the position before the step, whatever the previous velocity was, and then sets the
position to the old position plus that new velocity. -/
theorem dragged_sets_velocity_then_moves (ex ey : JSNum) (p : WordParticle) :
    (dragged ex ey p).vx = ((ex + p.dragOffsetX) - p.x) * JSNum.fin 0.3
    ∧ (dragged ex ey p).vy = ((ey + p.dragOffsetY) - p.y) * JSNum.fin 0.3
    ∧ (dragged ex ey p).x = p.x + (dragged ex ey p).vx
    ∧ (dragged ex ey p).y = p.y + (dragged ex ey p).vy
    ∧ ∀ a b : JSNum, dragged ex ey { p with vx := a, vy := b } = dragged ex ey p :=
  ⟨rfl, rfl, rfl, rfl, fun _ _ => rfl⟩

/-- C13: ending a drag multiplies both velocity components by 2, once, sets `isDragging`
to false and leaves position, mass and drag offset as they were. -/
theorem dragended_doubles_velocity (p : WordParticle) :
    (dragended p).vx = p.vx * JSNum.fin 2
    ∧ (dragended p).vy = p.vy * JSNum.fin 2
    ∧ (∀ v : ℚ, p.vx = JSNum.fin v → (dragended p).vx = JSNum.fin (2 * v))
    ∧ (∀ v : ℚ, p.vy = JSNum.fin v → (dragended p).vy = JSNum.fin (2 * v))
    ∧ (dragended p).isDragging = false
    ∧ (dragended p).x = p.x ∧ (dragended p).y = p.y
    ∧ (dragended p).mass = p.mass
    ∧ (dragended p).dragOffsetX = p.dragOffsetX
    ∧ (dragended p).dragOffsetY = p.dragOffsetY
    ∧ dragended p = { p with isDragging := false, vx := p.vx * JSNum.fin 2,
                             vy := p.vy * JSNum.fin 2 } := by
  refine ⟨rfl, rfl, ?_, ?_, rfl, rfl, rfl, rfl, rfl, rfl, rfl⟩
  · intro v hv
    show p.vx * JSNum.fin 2 = _
    rw [hv, JSNum.fin_mul_fin, mul_comm]
  · intro v hv
    show p.vy * JSNum.fin 2 = _
    rw [hv, JSNum.fin_mul_fin, mul_comm]

/-- Closed form of `n` drag steps with a fixed pointer, on finite values: the offset to
the target `pointer + dragOffset` is scaled by `0.7 ^ n`, and the drag offset is kept. -/
theorem dragged_iterate_fin (p : WordParticle) (ex ey ox oy px py : ℚ)
    (hox : p.dragOffsetX = JSNum.fin ox) (hoy : p.dragOffsetY = JSNum.fin oy)
    (hpx : p.x = JSNum.fin px) (hpy : p.y = JSNum.fin py) (n : ℕ) :
    ((dragged (JSNum.fin ex) (JSNum.fin ey))^[n] p).x
        = JSNum.fin ((ex + ox) - 0.7 ^ n * ((ex + ox) - px))
    ∧ ((dragged (JSNum.fin ex) (JSNum.fin ey))^[n] p).y
        = JSNum.fin ((ey + oy) - 0.7 ^ n * ((ey + oy) - py))
    ∧ ((dragged (JSNum.fin ex) (JSNum.fin ey))^[n] p).dragOffsetX = JSNum.fin ox
    ∧ ((dragged (JSNum.fin ex) (JSNum.fin ey))^[n] p).dragOffsetY = JSNum.fin oy := by
  induction n with
  | zero => simp [hox, hoy, hpx, hpy]
  | succ n ih =>
    obtain ⟨hx, hy, hdx, hdy⟩ := ih
    rw [Function.iterate_succ_apply', dragged_fin _ ex ey ox oy _ _ hdx hdy hx hy]
    refine ⟨?_, ?_, hdx, hdy⟩
    · show JSNum.fin _ = JSNum.fin _
      congr 1
      rw [pow_succ]
      ring
    · show JSNum.fin _ = JSNum.fin _
      congr 1
      rw [pow_succ]
      ring

/-- C12: drag tracking.  With a fixed target `T = pointer + dragOffset` and a particle
that does not start at `T`, at every drag step `n` (in particular the first 50) the
offset from the position to `T` is multiplied by 0.7, so the squared distance is
multiplied by `0.7 ^ 2`, the Euclidean distance is multiplied by 0.7 and strictly
decreases, and the new position is the point `0.7 * previous + 0.3 * T` of the segment
from the previous position to `T` (no overshoot). -/
theorem drag_tracking (p : WordParticle) (ex ey ox oy px py : ℚ)
    (hox : p.dragOffsetX = JSNum.fin ox) (hoy : p.dragOffsetY = JSNum.fin oy)
    (hpx : p.x = JSNum.fin px) (hpy : p.y = JSNum.fin py)
    (hne : px ≠ ex + ox ∨ py ≠ ey + oy) (n : ℕ) :
    ∃ x0 y0 x1 y1 : ℚ,
      ((dragged (JSNum.fin ex) (JSNum.fin ey))^[n] p).x = JSNum.fin x0
      ∧ ((dragged (JSNum.fin ex) (JSNum.fin ey))^[n] p).y = JSNum.fin y0
      ∧ ((dragged (JSNum.fin ex) (JSNum.fin ey))^[n + 1] p).x = JSNum.fin x1
      ∧ ((dragged (JSNum.fin ex) (JSNum.fin ey))^[n + 1] p).y = JSNum.fin y1
      ∧ (ex + ox) - x1 = 0.7 * ((ex + ox) - x0)
      ∧ (ey + oy) - y1 = 0.7 * ((ey + oy) - y0)
      ∧ 0 < ((ex + ox) - x0) ^ 2 + ((ey + oy) - y0) ^ 2
      ∧ ((ex + ox) - x1) ^ 2 + ((ey + oy) - y1) ^ 2
          = 0.7 ^ 2 * (((ex + ox) - x0) ^ 2 + ((ey + oy) - y0) ^ 2)
      ∧ ((ex + ox) - x1) ^ 2 + ((ey + oy) - y1) ^ 2
          < ((ex + ox) - x0) ^ 2 + ((ey + oy) - y0) ^ 2
      ∧ (∀ sqrt : ℚ → ℚ,
          ExactSqrtAt sqrt (((ex + ox) - x0) ^ 2 + ((ey + oy) - y0) ^ 2) →
          ExactSqrtAt sqrt (((ex + ox) - x1) ^ 2 + ((ey + oy) - y1) ^ 2) →
          sqrt (((ex + ox) - x1) ^ 2 + ((ey + oy) - y1) ^ 2)
              = 0.7 * sqrt (((ex + ox) - x0) ^ 2 + ((ey + oy) - y0) ^ 2)
          ∧ sqrt (((ex + ox) - x1) ^ 2 + ((ey + oy) - y1) ^ 2)
              < sqrt (((ex + ox) - x0) ^ 2 + ((ey + oy) - y0) ^ 2))
      ∧ x1 = (1 - 0.3) * x0 + 0.3 * (ex + ox)
      ∧ y1 = (1 - 0.3) * y0 + 0.3 * (ey + oy) := by
  obtain ⟨hx0, hy0, -, -⟩ := dragged_iterate_fin p ex ey ox oy px py hox hoy hpx hpy n
  obtain ⟨hx1, hy1, -, -⟩ := dragged_iterate_fin p ex ey ox oy px py hox hoy hpx hpy (n + 1)
  have hpow : (0 : ℚ) < 0.7 ^ n := by positivity
  have hpos : 0 < ((ex + ox) - ((ex + ox) - 0.7 ^ n * ((ex + ox) - px))) ^ 2
      + ((ey + oy) - ((ey + oy) - 0.7 ^ n * ((ey + oy) - py))) ^ 2 := by
    rcases hne with h | h
    · have h1 : (ex + ox) - px ≠ 0 := fun h0 => h (by linarith)
      have h2 : 0.7 ^ n * ((ex + ox) - px) ≠ 0 := mul_ne_zero (ne_of_gt hpow) h1
      have h3 : 0 < (0.7 ^ n * ((ex + ox) - px)) ^ 2 := by positivity
      have h4 : 0 ≤ (0.7 ^ n * ((ey + oy) - py)) ^ 2 := sq_nonneg _
      calc (0 : ℚ) < (0.7 ^ n * ((ex + ox) - px)) ^ 2 + (0.7 ^ n * ((ey + oy) - py)) ^ 2 := by
            linarith
        _ = _ := by ring
    · have h1 : (ey + oy) - py ≠ 0 := fun h0 => h (by linarith)
      have h2 : 0.7 ^ n * ((ey + oy) - py) ≠ 0 := mul_ne_zero (ne_of_gt hpow) h1
      have h3 : 0 < (0.7 ^ n * ((ey + oy) - py)) ^ 2 := by positivity
      have h4 : 0 ≤ (0.7 ^ n * ((ex + ox) - px)) ^ 2 := sq_nonneg _
      calc (0 : ℚ) < (0.7 ^ n * ((ex + ox) - px)) ^ 2 + (0.7 ^ n * ((ey + oy) - py)) ^ 2 := by
            linarith
        _ = _ := by ring
  have hscale : ((ex + ox) - ((ex + ox) - 0.7 ^ (n + 1) * ((ex + ox) - px))) ^ 2
      + ((ey + oy) - ((ey + oy) - 0.7 ^ (n + 1) * ((ey + oy) - py))) ^ 2
      = 0.7 ^ 2 * (((ex + ox) - ((ex + ox) - 0.7 ^ n * ((ex + ox) - px))) ^ 2
      + ((ey + oy) - ((ey + oy) - 0.7 ^ n * ((ey + oy) - py))) ^ 2) := by
    rw [pow_succ]
    ring
  refine ⟨_, _, _, _, hx0, hy0, hx1, hy1, ?_, ?_, hpos, hscale, ?_, ?_, ?_, ?_⟩
  · rw [pow_succ]; ring
  · rw [pow_succ]; ring
  · rw [hscale]
    nlinarith
  · intro sqrt h0 h1
    rw [hscale] at h1 ⊢
    obtain ⟨hn0, hs0⟩ := h0
    obtain ⟨hn1, hs1⟩ := h1
    generalize ((ex + ox) - ((ex + ox) - 0.7 ^ n * ((ex + ox) - px))) ^ 2
      + ((ey + oy) - ((ey + oy) - 0.7 ^ n * ((ey + oy) - py))) ^ 2 = s at hpos hn0 hs0 hn1 hs1 ⊢
    have hd0 : 0 < sqrt s := by
      rcases hn0.lt_or_eq with h | h
      · exact h
      · rw [← h] at hs0
        linarith
    have heq : sqrt (0.7 ^ 2 * s) = 0.7 * sqrt s := by
      have hsq : sqrt (0.7 ^ 2 * s) * sqrt (0.7 ^ 2 * s) = (0.7 * sqrt s) * (0.7 * sqrt s) := by
        rw [hs1]
        calc (0.7 : ℚ) ^ 2 * s = 0.7 ^ 2 * (sqrt s * sqrt s) := by rw [hs0]
          _ = _ := by ring
      have hnn : (0 : ℚ) ≤ 0.7 * sqrt s := by positivity
      nlinarith [mul_self_eq_mul_self_iff.mp hsq]
    refine ⟨heq, ?_⟩
    rw [heq]
    linarith
  · rw [pow_succ]; ring
  · rw [pow_succ]; ring

/-- Witness for C12: the particle grabbed at `(3, 4)`, pointer held at `(13, 4)`, at the
50th step. -/
theorem drag_tracking_witness :
    ((3 : ℚ) ≠ 13 + 0 ∨ (4 : ℚ) ≠ 4 + 0)
    ∧ ∃ x0 y0 x1 y1 : ℚ,
      ((dragged (JSNum.fin 13) (JSNum.fin 4))^[49] grabbedParticle).x = JSNum.fin x0
      ∧ ((dragged (JSNum.fin 13) (JSNum.fin 4))^[49] grabbedParticle).y = JSNum.fin y0
      ∧ ((dragged (JSNum.fin 13) (JSNum.fin 4))^[49 + 1] grabbedParticle).x = JSNum.fin x1
      ∧ ((dragged (JSNum.fin 13) (JSNum.fin 4))^[49 + 1] grabbedParticle).y = JSNum.fin y1
      ∧ (13 + 0) - x1 = 0.7 * ((13 + 0) - x0)
      ∧ (4 + 0) - y1 = 0.7 * ((4 + 0) - y0)
      ∧ 0 < ((13 + 0) - x0) ^ 2 + ((4 + 0) - y0) ^ 2
      ∧ ((13 + 0) - x1) ^ 2 + ((4 + 0) - y1) ^ 2
          = 0.7 ^ 2 * (((13 + 0) - x0) ^ 2 + ((4 + 0) - y0) ^ 2)
      ∧ ((13 + 0) - x1) ^ 2 + ((4 + 0) - y1) ^ 2
          < ((13 + 0) - x0) ^ 2 + ((4 + 0) - y0) ^ 2
      ∧ (∀ sqrt : ℚ → ℚ,
          ExactSqrtAt sqrt (((13 + 0) - x0) ^ 2 + ((4 + 0) - y0) ^ 2) →
          ExactSqrtAt sqrt (((13 + 0) - x1) ^ 2 + ((4 + 0) - y1) ^ 2) →
          sqrt (((13 + 0) - x1) ^ 2 + ((4 + 0) - y1) ^ 2)
              = 0.7 * sqrt (((13 + 0) - x0) ^ 2 + ((4 + 0) - y0) ^ 2)
          ∧ sqrt (((13 + 0) - x1) ^ 2 + ((4 + 0) - y1) ^ 2)
              < sqrt (((13 + 0) - x0) ^ 2 + ((4 + 0) - y0) ^ 2))
      ∧ x1 = (1 - 0.3) * x0 + 0.3 * (13 + 0)
      ∧ y1 = (1 - 0.3) * y0 + 0.3 * (4 + 0) :=
  ⟨Or.inl (by norm_num),
    drag_tracking grabbedParticle 13 4 0 0 3 4 (by decide!) (by decide!) rfl rfl
      (Or.inl (by norm_num)) 49⟩

/-! ## Further claims on the density estimator -/

/-- The Epanechnikov kernel with a positive bandwidth is non-negative. -/
theorem epanechnikov_value_nonneg (k v : ℚ) (hk : 0 < k) :
    0 ≤ (if |v / k| ≤ 1 then 0.75 * (1 - (v / k) ^ 2) / k else 0 : ℚ) := by
  split
  · next h =>
    have h1 : (v / k) ^ 2 ≤ 1 := by
      have := abs_le.mp h
      nlinarith
    have h2 : (0 : ℚ) ≤ 0.75 * (1 - (v / k) ^ 2) := by nlinarith
    exact div_nonneg h2 (le_of_lt hk)
  · exact le_refl 0

/-- The output of the estimator with the Epanechnikov kernel on finite inputs. -/
theorem kernelDensityEstimator_epanechnikov (k : ℚ) (hk : 0 < k) (X V : List ℚ)
    (hV : V ≠ []) :
    kernelDensityEstimator (kernelEpanechnikov (JSNum.fin k)) (X.map JSNum.fin)
        (V.map JSNum.fin)
      = X.map (fun x => (JSNum.fin x, some (JSNum.fin
          ((V.map (fun s => if |(x - s) / k| ≤ 1 then 0.75 * (1 - ((x - s) / k) ^ 2) / k
              else 0)).sum / (V.length : ℚ))))) := by
  unfold kernelDensityEstimator
  rw [List.map_map]
  apply List.map_congr_left
  intro x _
  simp only [Function.comp_apply]
  rw [d3mean_fin V hV (fun v => kernelEpanechnikov (JSNum.fin k) (JSNum.fin x - v))
    (fun s => if |(x - s) / k| ≤ 1 then 0.75 * (1 - ((x - s) / k) ^ 2) / k else 0)
    (fun s => by simp only [JSNum.fin_sub_fin, kernelEpanechnikov_fin _ _ hk])]

/-- C14: for every Epanechnikov bandwidth `k > 0`, every sequence of evaluation points
and every non-empty sample sequence, every density in the output of the estimator is a
number that is `>= 0`. -/
theorem density_nonneg (k : ℚ) (hk : 0 < k) (X V : List ℚ) (hV : V ≠ []) :
    ∀ e ∈ kernelDensityEstimator (kernelEpanechnikov (JSNum.fin k)) (X.map JSNum.fin)
        (V.map JSNum.fin),
      ∃ d : ℚ, e.2 = some (JSNum.fin d) ∧ 0 ≤ d := by
  intro e he
  rw [kernelDensityEstimator_epanechnikov k hk X V hV, List.mem_map] at he
  obtain ⟨x, -, rfl⟩ := he
  refine ⟨_, rfl, ?_⟩
  apply div_nonneg
  · apply List.sum_nonneg
    intro a ha
    rw [List.mem_map] at ha
    obtain ⟨s, -, rfl⟩ := ha
    exact epanechnikov_value_nonneg k (x - s) hk
  · exact Nat.cast_nonneg _

/-- Witness for C14: the end-to-end scenario, bandwidth 2. -/
theorem density_nonneg_witness :
    (0 : ℚ) < 2 ∧ ([1, 1, 1, 5, 5, 9] : List ℚ) ≠ []
    ∧ ∀ e ∈ kernelDensityEstimator (kernelEpanechnikov (JSNum.fin 2))
        (([0, 1, 5, 9, 10] : List ℚ).map JSNum.fin)
        (([1, 1, 1, 5, 5, 9] : List ℚ).map JSNum.fin),
      ∃ d : ℚ, e.2 = some (JSNum.fin d) ∧ 0 ≤ d :=
  ⟨by norm_num, by decide,
    density_nonneg 2 (by norm_num) [0, 1, 5, 9, 10] [1, 1, 1, 5, 5, 9] (by decide)⟩

/-- C15: density support.  For a bandwidth `k > 0` and the single sample `s`, the
estimated density is `0` at every evaluation point `x` with `|x - s| > k`, and is
`0.75 / k` at an evaluation point `x = s`. -/
theorem density_support (k : ℚ) (hk : 0 < k) (s : ℚ) (X : List ℚ) :
    (∀ (i : ℕ) (x : ℚ), X.get? i = some x → k < |x - s| →
      (kernelDensityEstimator (kernelEpanechnikov (JSNum.fin k)) (X.map JSNum.fin)
        [JSNum.fin s]).get? i = some (JSNum.fin x, some (JSNum.fin 0)))
    ∧ (∀ i : ℕ, X.get? i = some s →
      (kernelDensityEstimator (kernelEpanechnikov (JSNum.fin k)) (X.map JSNum.fin)
        [JSNum.fin s]).get? i = some (JSNum.fin s, some (JSNum.fin (0.75 / k)))) := by
  have hout := kernelDensityEstimator_epanechnikov k hk X [s] (by simp)
  rw [List.map_singleton] at hout
  rw [hout]
  constructor
  · intro i x hx hfar
    simp only [List.get?_eq_getElem?, List.getElem?_map] at hx ⊢
    rw [hx]
    simp only [Option.map_some', List.map_singleton, List.sum_singleton,
      List.length_singleton, Nat.cast_one, div_one]
    have : ¬ |(x - s) / k| ≤ 1 := by
      rw [abs_div, abs_of_pos hk, div_le_one hk]
      exact not_le.mpr hfar
    rw [if_neg this]
  · intro i hx
    simp only [List.get?_eq_getElem?, List.getElem?_map] at hx ⊢
    rw [hx]
    simp

/-- Witness for C15: bandwidth 2, the single sample 1, evaluation points `[0, 1, 5]`. -/
theorem density_support_witness :
    (0 : ℚ) < 2
    ∧ (∀ (i : ℕ) (x : ℚ), ([0, 1, 5] : List ℚ).get? i = some x → 2 < |x - 1| →
      (kernelDensityEstimator (kernelEpanechnikov (JSNum.fin 2))
        (([0, 1, 5] : List ℚ).map JSNum.fin) [JSNum.fin 1]).get? i
          = some (JSNum.fin x, some (JSNum.fin 0)))
    ∧ (∀ i : ℕ, ([0, 1, 5] : List ℚ).get? i = some 1 →
      (kernelDensityEstimator (kernelEpanechnikov (JSNum.fin 2))
        (([0, 1, 5] : List ℚ).map JSNum.fin) [JSNum.fin 1]).get? i
          = some (JSNum.fin 1, some (JSNum.fin (0.75 / 2)))) :=
  ⟨by norm_num, density_support 2 (by norm_num) 1 [0, 1, 5]⟩

/-- Addition of JavaScript numbers is commutative in the exact model. -/
theorem JSNum.add_comm_js (a b : JSNum) : a + b = b + a := by
  cases a <;> cases b <;>
    first
      | rfl
      | (show JSNum.fin _ = JSNum.fin _; rw [add_comm])

/-- The mean computed by `d3.mean` does not depend on the order of the values. -/
theorem d3mean_perm (V V2 : List JSNum) (h : V2.Perm V) (accessor : JSNum → JSNum) :
    d3mean V2 accessor = d3mean V accessor := by
  have hk : ((V2.map accessor).filter (fun value => !value.isNaN)).Perm
      ((V.map accessor).filter (fun value => !value.isNaN)) := (h.map accessor).filter _
  unfold d3mean
  simp only [hk.length_eq]
  rw [hk.foldl_eq' (fun x _ y _ z => by
    rw [JSNum.add_assoc_js, JSNum.add_comm_js x y, ← JSNum.add_assoc_js])]

/-- C16, amended: in exact arithmetic, that is up to the rounding of the operations, the
density estimate depends on neither the order of the samples nor anything but its
arguments: for every kernel, evaluation points `X` and samples `V`, and every
permutation `V2` of `V`, the exactly computed output for `V2` equals the one for `V`. -/
theorem kernelDensityEstimator_perm (kernel : JSNum → JSNum) (X V V2 : List JSNum)
    (h : V2.Perm V) :
    kernelDensityEstimator kernel X V2 = kernelDensityEstimator kernel X V := by
  unfold kernelDensityEstimator
  apply List.map_congr_left
  intro x _
  rw [d3mean_perm V V2 h]

/-- Witness for C16, amended: the samples `[5, 1]` and `[1, 5]` at the scenario's
points. -/
theorem kernelDensityEstimator_perm_witness :
    [JSNum.fin 5, JSNum.fin 1].Perm [JSNum.fin 1, JSNum.fin 5]
    ∧ kernelDensityEstimator (kernelEpanechnikov (JSNum.fin 2)) scenarioPoints
        [JSNum.fin 5, JSNum.fin 1]
      = kernelDensityEstimator (kernelEpanechnikov (JSNum.fin 2)) scenarioPoints
        [JSNum.fin 1, JSNum.fin 5] :=
  ⟨List.Perm.swap _ _ _,
    kernelDensityEstimator_perm (kernelEpanechnikov (JSNum.fin 2)) scenarioPoints
      [JSNum.fin 1, JSNum.fin 5] [JSNum.fin 5, JSNum.fin 1] (List.Perm.swap _ _ _)⟩

/-- C17, as stated, fails: a bandwidth `k <= 0` is not rejected.  With `k = -1` the
kernel returns `-0.75` at `v = 0` and the estimator returns a density curve with that
value; with `k = 0` the kernel returns `0`. -/
theorem nonpositive_bandwidth_not_rejected :
    kernelEpanechnikov (JSNum.fin (-1)) (JSNum.fin 0) = JSNum.fin (-0.75)
    ∧ kernelEpanechnikov (JSNum.fin 0) (JSNum.fin 1) = JSNum.fin 0
    ∧ kernelDensityEstimator (kernelEpanechnikov (JSNum.fin (-1))) [JSNum.fin 0]
        [JSNum.fin 0] = [(JSNum.fin 0, some (JSNum.fin (-0.75)))] := by
  decide!

/-- C17, amended: no bandwidth is rejected.  For `k < 0` the kernel returns the same
expression `0.75 * (1 - (v/k)^2) / k` when `|v/k| <= 1`, which is then `<= 0`, and `0`
otherwise; for `k = 0` it returns `0` at every `v`. -/
theorem kernelEpanechnikov_nonpositive_bandwidth (k v : ℚ) (hk : k ≤ 0) :
    kernelEpanechnikov (JSNum.fin k) (JSNum.fin v)
      = JSNum.fin (if k = 0 then 0
          else if |v / k| ≤ 1 then 0.75 * (1 - (v / k) ^ 2) / k else 0)
    ∧ (if k = 0 then 0
        else if |v / k| ≤ 1 then 0.75 * (1 - (v / k) ^ 2) / k else 0 : ℚ) ≤ 0 := by
  by_cases hk0 : k = 0
  · subst hk0
    refine ⟨?_, by simp⟩
    unfold kernelEpanechnikov
    simp only [JSNum.fin_div_zero, if_true]
    by_cases hv0 : v = 0
    · simp [hv0, JSNum.abs, JSNum.le]
    · by_cases hvp : 0 < v
      · simp [hv0, hvp, JSNum.abs, JSNum.le]
      · simp [hv0, hvp, JSNum.abs, JSNum.le]
  · have hneg : k < 0 := lt_of_le_of_ne hk hk0
    constructor
    · unfold kernelEpanechnikov
      simp only [JSNum.fin_div_fin _ _ hk0, JSNum.abs_fin, JSNum.le_fin_fin,
        JSNum.fin_mul_fin, JSNum.fin_sub_fin, if_neg hk0]
      by_cases h : |v / k| ≤ 1
      · simp [h, JSNum.fin_div_fin _ _ hk0, pow_two]
      · simp [h]
    · rw [if_neg hk0]
      split
      · next h =>
        have h1 : (v / k) ^ 2 ≤ 1 := by
          have := abs_le.mp h
          nlinarith
        have h2 : (0 : ℚ) ≤ 0.75 * (1 - (v / k) ^ 2) := by nlinarith
        exact div_nonpos_of_nonneg_of_nonpos h2 hk
      · exact le_refl 0

/-- Witness for C17 amended: bandwidth `-1` at `v = 0`. -/
theorem kernelEpanechnikov_nonpositive_bandwidth_witness :
    (-1 : ℚ) ≤ 0
    ∧ kernelEpanechnikov (JSNum.fin (-1)) (JSNum.fin 0)
      = JSNum.fin (if (-1 : ℚ) = 0 then 0
          else if |(0 : ℚ) / (-1)| ≤ 1 then 0.75 * (1 - ((0 : ℚ) / (-1)) ^ 2) / (-1) else 0)
    ∧ (if (-1 : ℚ) = 0 then 0
        else if |(0 : ℚ) / (-1)| ≤ 1 then 0.75 * (1 - ((0 : ℚ) / (-1)) ^ 2) / (-1) else 0 : ℚ)
        ≤ 0 :=
  ⟨by norm_num, kernelEpanechnikov_nonpositive_bandwidth (-1) 0 (by norm_num)⟩

/-- C18, as stated, fails: the constructor does not reject a word of size `<= 0`; it
returns a particle of mass `0`, or of mass `-5`. -/
theorem constructor_accepts_nonpositive_mass :
    (WordParticle.new { size := JSNum.fin 0 } (JSNum.fin 1) (JSNum.fin 2)
        (JSNum.fin 0.5) (JSNum.fin 0.5)).mass = JSNum.fin 0
    ∧ (WordParticle.new { size := JSNum.fin (-5) } (JSNum.fin 1) (JSNum.fin 2)
        (JSNum.fin 0.5) (JSNum.fin 0.5)).mass = JSNum.fin (-5) :=
  ⟨rfl, rfl⟩

/-- C18, amended: the constructor rejects nothing.  For every word, also one of size
`<= 0`, it returns a particle at the given position whose mass is `word.size` and whose
velocity components are `(Math.random() - 0.5) * 2`. -/
theorem constructor_total (word : Word) (x y r1 r2 : JSNum) :
    (WordParticle.new word x y r1 r2).mass = word.size
    ∧ (WordParticle.new word x y r1 r2).word = word
    ∧ (WordParticle.new word x y r1 r2).x = x
    ∧ (WordParticle.new word x y r1 r2).y = y
    ∧ (WordParticle.new word x y r1 r2).vx = (r1 - JSNum.fin 0.5) * JSNum.fin 2
    ∧ (WordParticle.new word x y r1 r2).vy = (r2 - JSNum.fin 0.5) * JSNum.fin 2 :=
  ⟨rfl, rfl, rfl, rfl, rfl, rfl⟩

/-! ## Further claims on `update` -/

/-- The pairwise step on finite values at distance `d >= 3`, for a positive mass. -/
theorem interact_far (sqrt : ℚ → ℚ) (p q : WordParticle)
    (px py qx qy pvx pvy pm qm d : ℚ)
    (hpx : p.x = JSNum.fin px) (hpy : p.y = JSNum.fin py)
    (hqx : q.x = JSNum.fin qx) (hqy : q.y = JSNum.fin qy)
    (hvx : p.vx = JSNum.fin pvx) (hvy : p.vy = JSNum.fin pvy)
    (hpm : p.mass = JSNum.fin pm) (hqm : q.word.size = JSNum.fin qm)
    (hmass : 0 < pm)
    (hsqrt : ExactSqrtAt sqrt ((qx - px) * (qx - px) + (qy - py) * (qy - py)))
    (hd : sqrt ((qx - px) * (qx - px) + (qy - py) * (qy - py)) = d)
    (hge : 3 ≤ d) :
    WordParticle.interact sqrt p q
      = { p with
          vx := JSNum.fin (pvx + (qx - px) / d
                  * (-(((pm + qm) * 800 / d ^ 2) / pm) + d * 0.00003))
          vy := JSNum.fin (pvy + (qy - py) / d
                  * (-(((pm + qm) * 800 / d ^ 2) / pm) + d * 0.00003)) } := by
  obtain ⟨h0, hsq⟩ := hsqrt
  have hs0 : 0 ≤ (qx - px) * (qx - px) + (qy - py) * (qy - py) := by
    rw [← hsq]; exact mul_nonneg h0 h0
  have hd0 : d ≠ 0 := by linarith
  have hdd : d * d ≠ 0 := mul_ne_zero hd0 hd0
  have hm0 : pm ≠ 0 := ne_of_gt hmass
  have hnlt : ¬ d < 3 := not_lt.mpr hge
  unfold WordParticle.interact
  simp only [hpx, hpy, hqx, hqy, hvx, hvy, hpm, hqm, JSNum.fin_sub_fin,
    JSNum.fin_mul_fin, JSNum.fin_add_fin, JSNum.sqrtWith_fin sqrt _ hs0, hd,
    JSNum.lt_fin_fin, hnlt, decide_False, JSNum.fin_div_fin _ _ hd0,
    JSNum.fin_div_fin _ _ hdd, JSNum.fin_div_fin _ _ hm0]
  simp only [Bool.false_eq_true, if_false]
  congr 2 <;> ring

/-- C19: for positive-mass particles `p` and `q` at Euclidean distance `d >= 3` with
`0.00003 * d^3 < 800` (for instance `d = 3.001`), the pairwise step of `p.update` for
`q` adds to `p`'s velocity a nonzero vector whose dot product with
`delta = q.position - p.position` is strictly negative: it points away from `q`. -/
theorem interact_repels (sqrt : ℚ → ℚ) (p q : WordParticle)
    (px py qx qy pvx pvy pm qm d : ℚ)
    (hpx : p.x = JSNum.fin px) (hpy : p.y = JSNum.fin py)
    (hqx : q.x = JSNum.fin qx) (hqy : q.y = JSNum.fin qy)
    (hvx : p.vx = JSNum.fin pvx) (hvy : p.vy = JSNum.fin pvy)
    (hpm : p.mass = JSNum.fin pm) (hqm : q.mass = JSNum.fin qm)
    (hqsize : q.word.size = q.mass)
    (hmass : 0 < pm) (hqmass : 0 < qm)
    (hsqrt : ExactSqrtAt sqrt ((qx - px) * (qx - px) + (qy - py) * (qy - py)))
    (hd : sqrt ((qx - px) * (qx - px) + (qy - py) * (qy - py)) = d)
    (hge : 3 ≤ d) (hsmall : 0.00003 * d ^ 3 < 800) :
    ∃ ax ay : ℚ,
      WordParticle.interact sqrt p q
        = { p with vx := JSNum.fin (pvx + ax), vy := JSNum.fin (pvy + ay) }
      ∧ (ax ≠ 0 ∨ ay ≠ 0)
      ∧ ax * (qx - px) + ay * (qy - py) < 0 := by
  have hfar := interact_far sqrt p q px py qx qy pvx pvy pm qm d hpx hpy hqx hqy hvx hvy
    hpm (hqsize.trans hqm) hmass hsqrt hd hge
  obtain ⟨-, hsq⟩ := hsqrt
  rw [hd] at hsq
  have hdpos : 0 < d := by linarith
  have hd2 : 0 < d ^ 2 := by positivity
  have hc : -(((pm + qm) * 800 / d ^ 2) / pm) + d * 0.00003 < 0 := by
    have hlt : d * 0.00003 < ((pm + qm) * 800 / d ^ 2) / pm := by
      rw [lt_div_iff₀ hmass, lt_div_iff₀ hd2]
      have h1 : 0.00003 * d ^ 3 * pm < 800 * pm := mul_lt_mul_of_pos_right hsmall hmass
      nlinarith
    linarith
  have hdot : (qx - px) / d * (-(((pm + qm) * 800 / d ^ 2) / pm) + d * 0.00003) * (qx - px)
      + (qy - py) / d * (-(((pm + qm) * 800 / d ^ 2) / pm) + d * 0.00003) * (qy - py)
      = d * (-(((pm + qm) * 800 / d ^ 2) / pm) + d * 0.00003) := by
    have : (qx - px) / d * (-(((pm + qm) * 800 / d ^ 2) / pm) + d * 0.00003) * (qx - px)
        + (qy - py) / d * (-(((pm + qm) * 800 / d ^ 2) / pm) + d * 0.00003) * (qy - py)
        = ((qx - px) * (qx - px) + (qy - py) * (qy - py)) / d
          * (-(((pm + qm) * 800 / d ^ 2) / pm) + d * 0.00003) := by ring
    rw [this, ← hsq, mul_div_assoc, div_self (ne_of_gt hdpos), mul_one]
  have hneg : (qx - px) / d * (-(((pm + qm) * 800 / d ^ 2) / pm) + d * 0.00003) * (qx - px)
      + (qy - py) / d * (-(((pm + qm) * 800 / d ^ 2) / pm) + d * 0.00003) * (qy - py) < 0 := by
    rw [hdot]
    exact mul_neg_of_pos_of_neg hdpos hc
  refine ⟨_, _, hfar, ?_, hneg⟩
  by_contra hzero
  push_neg at hzero
  rw [hzero.1, hzero.2] at hneg
  simp at hneg

/-- Witness for C19: `p` at the origin and `q` at distance 3.001 on the x axis. -/
theorem interact_repels_witness :
    (0 : ℚ) < 30 ∧ (3 : ℚ) ≤ 3.001 ∧ (0.00003 : ℚ) * 3.001 ^ 3 < 800
    ∧ ∃ ax ay : ℚ,
      WordParticle.interact sqrtQ (particleAt 0 0 1 1) (particleAt 3.001 0 0 0)
        = { particleAt 0 0 1 1 with vx := JSNum.fin (1 + ax), vy := JSNum.fin (1 + ay) }
      ∧ (ax ≠ 0 ∨ ay ≠ 0)
      ∧ ax * (3.001 - 0) + ay * (0 - 0) < 0 :=
  ⟨by norm_num, by norm_num, by norm_num,
    interact_repels sqrtQ (particleAt 0 0 1 1) (particleAt 3.001 0 0 0)
      0 0 3.001 0 1 1 30 30 3.001 rfl rfl rfl rfl rfl rfl rfl rfl rfl
      (by norm_num) (by norm_num)
      (by unfold ExactSqrtAt; decide!) (by decide!) (by norm_num) (by norm_num)⟩

/-- The pairwise step reads only the position and the word of the other particle. -/
theorem interact_congr_other (sqrt : ℚ → ℚ) (this a b : WordParticle)
    (h : (a.x, a.y, a.word) = (b.x, b.y, b.word)) :
    WordParticle.interact sqrt this a = WordParticle.interact sqrt this b := by
  simp only [Prod.mk.injEq] at h
  obtain ⟨hx, hy, hw⟩ := h
  unfold WordParticle.interact
  rw [hx, hy, hw]

/-- The force loop reads only the positions and the words of the particles. -/
theorem foldl_enumFrom_interact_congr (sqrt : ℚ → ℚ) (i : ℕ) :
    ∀ (l1 l2 : List WordParticle) (n : ℕ) (acc : WordParticle),
      l1.map (fun q => (q.x, q.y, q.word)) = l2.map (fun q => (q.x, q.y, q.word)) →
      (l1.enumFrom n).foldl
          (fun acc jo => if jo.1 = i then acc else WordParticle.interact sqrt acc jo.2) acc
        = (l2.enumFrom n).foldl
          (fun acc jo => if jo.1 = i then acc else WordParticle.interact sqrt acc jo.2) acc := by
  intro l1
  induction l1 with
  | nil =>
    intro l2 n acc h
    cases l2 with
    | nil => rfl
    | cons b l2 => simp at h
  | cons a l1 ih =>
    intro l2 n acc h
    cases l2 with
    | nil => simp at h
    | cons b l2 =>
      simp only [List.map_cons, List.cons.injEq] at h
      obtain ⟨hab, htl⟩ := h
      simp only [List.enumFrom_cons, List.foldl_cons]
      rw [interact_congr_other sqrt acc a b hab]
      exact ih l2 (n + 1) _ htl

/-- C20: while a particle `q` is being dragged, every other particle `p` gets the same
full `update` step as when `q` is not dragged, and `q` enters `p`'s pairwise loop
through its current position and size only: the pairwise step of `p` for `q` and the
whole `update` of `p` are the same whatever the value of `q.isDragging`. -/
theorem update_ignores_dragging_of_others (sqrt : ℚ → ℚ) (particles : List WordParticle)
    (i j : ℕ) (q : WordParticle) (b : Bool)
    (hq : particles.get? j = some q) (hij : i ≠ j) :
    (WordParticle.update sqrt (particles.set j { q with isDragging := b }) i).get? i
        = (WordParticle.update sqrt particles i).get? i
    ∧ (∀ p : WordParticle,
        WordParticle.interact sqrt p { q with isDragging := b }
          = WordParticle.interact sqrt p q)
    ∧ (∀ p : WordParticle,
        WordParticle.pairContribution sqrt p { q with isDragging := b }
          = WordParticle.pairContribution sqrt p q) := by
  refine ⟨?_, fun p => rfl, fun p => rfl⟩
  have hkey : (particles.set j { q with isDragging := b }).map (fun q => (q.x, q.y, q.word))
      = particles.map (fun q => (q.x, q.y, q.word)) := by
    apply List.ext_getElem?
    intro n
    simp only [List.get?_eq_getElem?] at hq
    have hj : j < particles.length := by
      by_contra h
      rw [List.getElem?_eq_none (by omega)] at hq
      exact Option.noConfusion hq
    by_cases hn : j = n
    · subst hn
      have hjq : particles[j] = q := by
        rw [List.getElem?_eq_getElem hj] at hq
        exact Option.some.inj hq
      simp [List.getElem?_map, List.getElem?_set, hj, hjq]
    · simp [List.getElem?_map, List.getElem?_set, hn]
  have hforces : ∀ p, WordParticle.forces sqrt (particles.set j { q with isDragging := b }) i p
      = WordParticle.forces sqrt particles i p := fun p =>
    foldl_enumFrom_interact_congr sqrt i _ _ 0 p hkey
  have hget : (particles.set j { q with isDragging := b }).get? i = particles.get? i := by
    simp [List.getElem?_set, Ne.symm hij]
  unfold WordParticle.update
  rw [hget]
  cases hp : particles.get? i with
  | none =>
    simp only [List.get?_eq_getElem?] at hget ⊢
    exact hget
  | some p =>
    have hi : i < particles.length := by
      by_contra h
      rw [List.get?_eq_none.mpr (by omega)] at hp
      exact Option.noConfusion hp
    simp [List.getElem?_set, hi, WordParticle.updateThis, hforces]

/-- Witness for C20: two particles, the second one being dragged. -/
theorem update_ignores_dragging_of_others_witness :
    [particleAt 3 4 1 1, particleAt 6 8 0 0].get? 1 = some (particleAt 6 8 0 0)
    ∧ (0 : ℕ) ≠ 1
    ∧ (WordParticle.update sqrtQ
          ([particleAt 3 4 1 1, particleAt 6 8 0 0].set 1
            { particleAt 6 8 0 0 with isDragging := true }) 0).get? 0
        = (WordParticle.update sqrtQ [particleAt 3 4 1 1, particleAt 6 8 0 0] 0).get? 0
    ∧ (∀ p : WordParticle,
        WordParticle.interact sqrtQ p { particleAt 6 8 0 0 with isDragging := true }
          = WordParticle.interact sqrtQ p (particleAt 6 8 0 0))
    ∧ (∀ p : WordParticle,
        WordParticle.pairContribution sqrtQ p { particleAt 6 8 0 0 with isDragging := true }
          = WordParticle.pairContribution sqrtQ p (particleAt 6 8 0 0)) :=
  ⟨rfl, by decide,
    update_ignores_dragging_of_others sqrtQ [particleAt 3 4 1 1, particleAt 6 8 0 0] 0 1
      (particleAt 6 8 0 0) true rfl (by decide)⟩

/-- Witness for C13: ending the drag of a particle with velocity `(1, 1)`. -/
theorem dragended_doubles_velocity_witness :
    (dragended (particleAt 3 4 1 1)).vx = JSNum.fin (2 * 1)
    ∧ (dragended (particleAt 3 4 1 1)).vy = JSNum.fin (2 * 1)
    ∧ (dragended (particleAt 3 4 1 1)).isDragging = false :=
  ⟨(dragended_doubles_velocity (particleAt 3 4 1 1)).2.2.1 1 rfl,
    (dragended_doubles_velocity (particleAt 3 4 1 1)).2.2.2.1 1 rfl,
    (dragended_doubles_velocity (particleAt 3 4 1 1)).2.2.2.2.1⟩

/-! ## Frame conditions and the order of the updates -/

/-- Every step of `update` keeps the fields other than position and velocity. -/
theorem updateThis_fixedPart (sqrt : ℚ → ℚ) (particles : List WordParticle) (i : ℕ)
    (p : WordParticle) :
    (WordParticle.updateThis sqrt particles i p).fixedPart = p.fixedPart := by
  unfold WordParticle.updateThis
  rw [WordParticle.forces_eq_foldl, WordParticle.foldl_interact]
  rfl

/-- Writing back at index `i` a value with the same image under `f` keeps the list of
images. -/
theorem map_set_same {α β : Type} (f : α → β) (l : List α) (i : ℕ) (a b : α)
    (hi : l.get? i = some a) (hf : f b = f a) : (l.set i b).map f = l.map f := by
  apply List.ext_getElem?
  intro n
  simp only [List.get?_eq_getElem?] at hi
  by_cases hn : i = n
  · subst hn
    have hlt : i < l.length := by
      by_contra h
      rw [List.getElem?_eq_none (by omega)] at hi
      exact Option.noConfusion hi
    have hia : l[i] = a := by
      rw [List.getElem?_eq_getElem hlt] at hi
      exact Option.some.inj hi
    simp [List.getElem?_map, List.getElem?_set, hlt, hf, hia]
  · simp [List.getElem?_map, List.getElem?_set, hn]

/-- One `update` keeps the number of particles. -/
theorem update_length (sqrt : ℚ → ℚ) (particles : List WordParticle) (i : ℕ) :
    (WordParticle.update sqrt particles i).length = particles.length := by
  unfold WordParticle.update
  cases particles.get? i with
  | none => rfl
  | some p => simp

/-- One `update` of the particle at index `i` leaves the particles at other indices. -/
theorem update_get_ne (sqrt : ℚ → ℚ) (particles : List WordParticle) (i j : ℕ)
    (hji : j ≠ i) :
    (WordParticle.update sqrt particles i).get? j = particles.get? j := by
  unfold WordParticle.update
  cases particles.get? i with
  | none => rfl
  | some p => simp [List.getElem?_set, Ne.symm hji]

/-- One `update` keeps the fixed fields of every particle. -/
theorem update_fixedPart (sqrt : ℚ → ℚ) (particles : List WordParticle) (i : ℕ) :
    (WordParticle.update sqrt particles i).map WordParticle.fixedPart
      = particles.map WordParticle.fixedPart := by
  unfold WordParticle.update
  cases hp : particles.get? i with
  | none => rfl
  | some p =>
    exact map_set_same WordParticle.fixedPart particles i p _ hp
      (updateThis_fixedPart sqrt particles i p)

/-- The state after the updates of the particles at indices `0 .. k-1`. -/
theorem foldl_update_invariant (sqrt : ℚ → ℚ) (particles : List WordParticle) (k : ℕ) :
    ((List.range k).foldl (fun ps i => WordParticle.update sqrt ps i) particles).length
        = particles.length
    ∧ ((List.range k).foldl (fun ps i => WordParticle.update sqrt ps i) particles).map
        WordParticle.fixedPart = particles.map WordParticle.fixedPart
    ∧ ∀ j, k ≤ j →
        ((List.range k).foldl (fun ps i => WordParticle.update sqrt ps i) particles).get? j
          = particles.get? j := by
  induction k with
  | zero => simp
  | succ k ih =>
    obtain ⟨hlen, hfix, hget⟩ := ih
    rw [List.range_succ, List.foldl_append]
    simp only [List.foldl_cons, List.foldl_nil]
    refine ⟨?_, ?_, ?_⟩
    · rw [update_length, hlen]
    · rw [update_fixedPart, hfix]
    · intro j hj
      rw [update_get_ne sqrt _ k j (by omega)]
      exact hget j (by omega)

/-- C21: `update` and the drag step change only the position and the velocity of the
particle they are called on: its word, mass, initial position, drag flag and drag
offset are kept, every other particle is left as it is, and the number of particles is
kept; the same holds for a whole `animate` frame. -/
theorem operations_preserve_fixed_parts (sqrt : ℚ → ℚ) (particles : List WordParticle)
    (i : ℕ) (ex ey : JSNum) (p : WordParticle) :
    (WordParticle.update sqrt particles i).length = particles.length
    ∧ (∀ j, j ≠ i → (WordParticle.update sqrt particles i).get? j = particles.get? j)
    ∧ (WordParticle.update sqrt particles i).map WordParticle.fixedPart
        = particles.map WordParticle.fixedPart
    ∧ (animate sqrt particles).length = particles.length
    ∧ (animate sqrt particles).map WordParticle.fixedPart
        = particles.map WordParticle.fixedPart
    ∧ (dragged ex ey p).fixedPart = p.fixedPart
    ∧ (dragged ex ey p).mass = p.mass
    ∧ (dragged ex ey p).dragOffsetX = p.dragOffsetX
    ∧ (dragged ex ey p).dragOffsetY = p.dragOffsetY
    ∧ (particles.set i (dragged ex ey p)).length = particles.length
    ∧ (∀ j, j ≠ i → (particles.set i (dragged ex ey p)).get? j = particles.get? j) := by
  obtain ⟨hlen, hfix, -⟩ := foldl_update_invariant sqrt particles particles.length
  refine ⟨update_length sqrt particles i, fun j hj => update_get_ne sqrt particles i j hj,
    update_fixedPart sqrt particles i, hlen, hfix, rfl, rfl, rfl, rfl, ?_, ?_⟩
  · simp
  · intro j hj
    simp [List.getElem?_set, Ne.symm hj]

/-- Witness for C21: two particles; `update` of the first one keeps the second one and
the mass and drag offset of the first one. -/
theorem operations_preserve_fixed_parts_witness :
    (WordParticle.update sqrtQ [particleAt 3 4 1 1, grabbedParticle] 0).get? 1
        = [particleAt 3 4 1 1, grabbedParticle].get? 1
    ∧ (WordParticle.update sqrtQ [particleAt 3 4 1 1, grabbedParticle] 0).map
        WordParticle.fixedPart
        = [particleAt 3 4 1 1, grabbedParticle].map WordParticle.fixedPart
    ∧ (dragged (JSNum.fin 13) (JSNum.fin 4) grabbedParticle).fixedPart
        = grabbedParticle.fixedPart :=
  ⟨(operations_preserve_fixed_parts sqrtQ [particleAt 3 4 1 1, grabbedParticle] 0
      (JSNum.fin 13) (JSNum.fin 4) grabbedParticle).2.1 1 (by decide),
    (operations_preserve_fixed_parts sqrtQ [particleAt 3 4 1 1, grabbedParticle] 0
      (JSNum.fin 13) (JSNum.fin 4) grabbedParticle).2.2.1,
    (operations_preserve_fixed_parts sqrtQ [particleAt 3 4 1 1, grabbedParticle] 0
      (JSNum.fin 13) (JSNum.fin 4) grabbedParticle).2.2.2.2.2.1⟩

/-- Once the particle at index `j` has been updated, the later updates of the same frame
leave it as it is. -/
theorem foldl_update_stable (sqrt : ℚ → ℚ) (particles : List WordParticle) (j m : ℕ)
    (hm : j + 1 ≤ m) :
    ((List.range m).foldl (fun ps i => WordParticle.update sqrt ps i) particles).get? j
      = ((List.range (j + 1)).foldl
          (fun ps i => WordParticle.update sqrt ps i) particles).get? j := by
  induction m with
  | zero => omega
  | succ m ih =>
    by_cases hjm : j + 1 ≤ m
    · rw [List.range_succ, List.foldl_append]
      simp only [List.foldl_cons, List.foldl_nil]
      rw [update_get_ne sqrt _ m j (by omega)]
      exact ih hjm
    · have : m = j := by omega
      subst this
      rfl

/-- The state read by the update of the particle at index `i`: the particles before `i`
are those of the end of the frame, the particles from `i` on are those of its start. -/
theorem foldl_update_prefix (sqrt : ℚ → ℚ) (particles : List WordParticle) (i : ℕ)
    (hi : i ≤ particles.length) :
    (List.range i).foldl (fun ps k => WordParticle.update sqrt ps k) particles
      = (animate sqrt particles).take i ++ particles.drop i := by
  have hlenA : (animate sqrt particles).length = particles.length :=
    (foldl_update_invariant sqrt particles particles.length).1
  have hlenT : ((animate sqrt particles).take i).length = i := by
    rw [List.length_take, hlenA]
    omega
  apply List.ext_getElem?
  intro j
  by_cases hj : j < i
  · rw [List.getElem?_append_left (by omega), List.getElem?_take_of_lt hj]
    have h1 := foldl_update_stable sqrt particles j i (by omega)
    have h2 := foldl_update_stable sqrt particles j particles.length (by omega)
    simp only [List.get?_eq_getElem?] at h1 h2
    rw [h1]
    unfold animate
    rw [h2]
  · rw [List.getElem?_append_right (by omega), hlenT, List.getElem?_drop]
    have h3 := (foldl_update_invariant sqrt particles i).2.2 j (by omega)
    simp only [List.get?_eq_getElem?] at h3
    rw [h3]
    congr 1
    omega

/-- The particle at index `i` after its `update`. -/
theorem update_get_self (sqrt : ℚ → ℚ) (particles : List WordParticle) (i : ℕ)
    (p : WordParticle) (hp : particles.get? i = some p) :
    (WordParticle.update sqrt particles i).get? i
      = some (WordParticle.updateThis sqrt particles i p) := by
  have hi : i < particles.length := by
    by_contra h
    rw [List.get?_eq_none.mpr (by omega)] at hp
    exact Option.noConfusion hp
  unfold WordParticle.update
  rw [hp]
  simp [List.getElem?_set, hi]

/-- C23: one `animate` frame updates the particles in place, one after the other in array
order: it is the left fold of `update` over the indices, and the new state of the
particle at index `i` is its `update` run on the array whose particles `0 .. i-1` are
already updated and whose particles `i .. n-1` are still those of the previous frame. -/
theorem animate_sequential (sqrt : ℚ → ℚ) (particles : List WordParticle) :
    animate sqrt particles
        = (List.range particles.length).foldl
            (fun ps i => WordParticle.update sqrt ps i) particles
    ∧ (animate sqrt particles).length = particles.length
    ∧ ∀ (i : ℕ) (p : WordParticle), particles.get? i = some p →
        (animate sqrt particles).get? i
          = some (WordParticle.updateThis sqrt
              ((animate sqrt particles).take i ++ particles.drop i) i p) := by
  refine ⟨rfl, (foldl_update_invariant sqrt particles particles.length).1, ?_⟩
  intro i p hp
  have hi : i < particles.length := by
    by_contra h
    rw [List.get?_eq_none.mpr (by omega)] at hp
    exact Option.noConfusion hp
  have hpre := foldl_update_prefix sqrt particles i (by omega)
  have hcur : ((List.range i).foldl
      (fun ps k => WordParticle.update sqrt ps k) particles).get? i = some p := by
    rw [(foldl_update_invariant sqrt particles i).2.2 i (le_refl i)]
    exact hp
  calc (animate sqrt particles).get? i
      = ((List.range (i + 1)).foldl
          (fun ps k => WordParticle.update sqrt ps k) particles).get? i :=
        foldl_update_stable sqrt particles i particles.length (by omega)
    _ = (WordParticle.update sqrt ((List.range i).foldl
          (fun ps k => WordParticle.update sqrt ps k) particles) i).get? i := by
        rw [List.range_succ, List.foldl_append]
        rfl
    _ = some (WordParticle.updateThis sqrt ((List.range i).foldl
          (fun ps k => WordParticle.update sqrt ps k) particles) i p) :=
        update_get_self sqrt _ i p hcur
    _ = some (WordParticle.updateThis sqrt
          ((animate sqrt particles).take i ++ particles.drop i) i p) :=
        congrArg (fun l => some (WordParticle.updateThis sqrt l i p)) hpre

/-- Witness for C23: the second of two particles on the x axis reads the updated first
one. -/
theorem animate_sequential_witness :
    [particleAt (-5) 0 0 0, particleAt 5 0 0 0].get? 1 = some (particleAt 5 0 0 0)
    ∧ (animate sqrtQ [particleAt (-5) 0 0 0, particleAt 5 0 0 0]).get? 1
      = some (WordParticle.updateThis sqrtQ
          ((animate sqrtQ [particleAt (-5) 0 0 0, particleAt 5 0 0 0]).take 1
            ++ [particleAt (-5) 0 0 0, particleAt 5 0 0 0].drop 1) 1 (particleAt 5 0 0 0)) :=
  ⟨rfl, (animate_sequential sqrtQ [particleAt (-5) 0 0 0, particleAt 5 0 0 0]).2.2 1
    (particleAt 5 0 0 0) rfl⟩

/-- Closed form of `n` damping-and-move steps on a finite velocity. -/
theorem damping_iterate_fin (p : WordParticle) (v0x v0y : ℚ)
    (hvx : p.vx = JSNum.fin v0x) (hvy : p.vy = JSNum.fin v0y) (n : ℕ) :
    ((fun q => WordParticle.integrate (WordParticle.damping q))^[n] p).vx
        = JSNum.fin (v0x * 0.99 ^ n)
    ∧ ((fun q => WordParticle.integrate (WordParticle.damping q))^[n] p).vy
        = JSNum.fin (v0y * 0.99 ^ n) := by
  induction n with
  | zero => simp [hvx, hvy]
  | succ n ih =>
    obtain ⟨hx, hy⟩ := ih
    rw [Function.iterate_succ_apply']
    constructor
    · show ((fun q => WordParticle.integrate (WordParticle.damping q))^[n] p).vx
          * JSNum.fin 0.99 = _
      rw [hx, JSNum.fin_mul_fin, pow_succ, mul_assoc]
    · show ((fun q => WordParticle.integrate (WordParticle.damping q))^[n] p).vy
          * JSNum.fin 0.99 = _
      rw [hy, JSNum.fin_mul_fin, pow_succ, mul_assoc]

/-- C22: damping convergence.  For a particle with velocity `(10, 0)`, when the force
steps of `update` are switched off (only the damping and the position update run), the
velocity after `n` ticks is `(10 * 0.99^n, 0)`: its magnitude is multiplied by 0.99 at
every tick, for every `n`. -/
theorem damping_convergence (p : WordParticle)
    (hvx : p.vx = JSNum.fin 10) (hvy : p.vy = JSNum.fin 0) (n : ℕ) :
    ((fun q => WordParticle.integrate (WordParticle.damping q))^[n] p).vx
        = JSNum.fin (10 * 0.99 ^ n)
    ∧ ((fun q => WordParticle.integrate (WordParticle.damping q))^[n] p).vy = JSNum.fin 0
    ∧ (10 * 0.99 ^ (n + 1) : ℚ) = 0.99 * (10 * 0.99 ^ n)
    ∧ (0 : ℚ) < 10 * 0.99 ^ n := by
  obtain ⟨hx, hy⟩ := damping_iterate_fin p 10 0 hvx hvy n
  refine ⟨hx, ?_, ?_, by positivity⟩
  · rw [hy, zero_mul]
  · rw [pow_succ]
    ring

/-- Witness for C22: a particle at `(3, 4)` with velocity `(10, 0)`, after 7 ticks. -/
theorem damping_convergence_witness :
    ((fun q => WordParticle.integrate (WordParticle.damping q))^[7]
        (particleAt 3 4 10 0)).vx = JSNum.fin (10 * 0.99 ^ 7)
    ∧ ((fun q => WordParticle.integrate (WordParticle.damping q))^[7]
        (particleAt 3 4 10 0)).vy = JSNum.fin 0
    ∧ (10 * 0.99 ^ (7 + 1) : ℚ) = 0.99 * (10 * 0.99 ^ 7)
    ∧ (0 : ℚ) < 10 * 0.99 ^ 7 :=
  damping_convergence (particleAt 3 4 10 0) rfl rfl 7

/-- C24: the processing order affects the trajectory.  For the two particles of mass 30
at `(-5, 0)` and `(5, 0)` (distance 10, at rest), the in-place sequential frame of the
source and the snapshot tick give different positions after one tick: the second
particle ends at `x = 20.800103` in the snapshot tick and at a different `x` in the
source's frame, where it has read the already moved first particle. -/
theorem sequential_differs_from_snapshot :
    ∃ a b : WordParticle,
      a.mass = JSNum.fin 30 ∧ b.mass = JSNum.fin 30
      ∧ WordParticle.pairDistance sqrtQ a b = JSNum.fin 10
      ∧ (snapshotTick sqrtQ [a, b]).map (fun p => (p.x, p.y))
          = [(JSNum.fin (-20.800103), JSNum.fin 0), (JSNum.fin 20.800103, JSNum.fin 0)]
      ∧ (animate sqrtQ [a, b]).map (fun p => (p.x, p.y))
          = [(JSNum.fin (-20.800103), JSNum.fin 0),
             (JSNum.fin (48853569601713425238105260081 / 6656453148106090000000000000),
              JSNum.fin 0)]
      ∧ (animate sqrtQ [a, b]).map (fun p => (p.x, p.y))
          ≠ (snapshotTick sqrtQ [a, b]).map (fun p => (p.x, p.y))
      ∧ ExactSqrtAt sqrtQ ((5 - (-5)) * (5 - (-5)) + (0 - 0) * (0 - 0))
      ∧ ExactSqrtAt sqrtQ ((-20.800103 - 5) * (-20.800103 - 5) + (0 - 0) * (0 - 0))
      ∧ ExactSqrtAt sqrtQ ((0 - (-5)) * (0 - (-5)) + (0 - 0) * (0 - 0))
      ∧ ExactSqrtAt sqrtQ ((0 - 5) * (0 - 5) + (0 - 0) * (0 - 0)) := by
  refine ⟨particleAt (-5) 0 0 0, particleAt 5 0 0 0, rfl, rfl, ?_, ?_, ?_, ?_, ?_, ?_, ?_, ?_⟩
  · decide!
  · decide!
  · decide!
  · decide!
  · unfold ExactSqrtAt; decide!
  · unfold ExactSqrtAt; decide!
  · unfold ExactSqrtAt; decide!
  · unfold ExactSqrtAt; decide!

/-! ## Division safety, mass dependence, drag start and word sizes -/

/-- The pairwise step in terms of the computed distance: the pair is skipped exactly when
`distance < 3` holds. -/
theorem interact_skip_iff (sqrt : ℚ → ℚ) (p q : WordParticle) :
    (JSNum.lt (WordParticle.pairDistance sqrt p q) (JSNum.fin 3) = true →
      WordParticle.interact sqrt p q = p)
    ∧ (JSNum.lt (WordParticle.pairDistance sqrt p q) (JSNum.fin 3) = false →
      WordParticle.interact sqrt p q
        = { p with
            vx := p.vx - (((q.x - p.x) / WordParticle.pairDistance sqrt p q)
                    * (((p.mass + q.word.size) * JSNum.fin 800)
                        / (WordParticle.pairDistance sqrt p q
                            * WordParticle.pairDistance sqrt p q))) / p.mass
                  + ((q.x - p.x) / WordParticle.pairDistance sqrt p q)
                    * (WordParticle.pairDistance sqrt p q * JSNum.fin 0.00003)
            vy := p.vy - (((q.y - p.y) / WordParticle.pairDistance sqrt p q)
                    * (((p.mass + q.word.size) * JSNum.fin 800)
                        / (WordParticle.pairDistance sqrt p q
                            * WordParticle.pairDistance sqrt p q))) / p.mass
                  + ((q.y - p.y) / WordParticle.pairDistance sqrt p q)
                    * (WordParticle.pairDistance sqrt p q * JSNum.fin 0.00003) }) := by
  constructor
  · intro h
    unfold WordParticle.interact
    unfold WordParticle.pairDistance at h
    simp only [h, if_true]
  · intro h
    unfold WordParticle.interact
    unfold WordParticle.pairDistance at h ⊢
    simp only [h, Bool.false_eq_true, if_false]

/-- C25: the minimum-distance test makes the pairwise step division-safe.  For a
particle `p` of mass `> 0` and any other particle `q`, a pair below distance 3 is
skipped (no division runs); when the pair is not skipped, none of the divisors
`distance`, `distance * distance` and `p.mass` is zero, and for finite positions the
distance is a number `>= 3`. -/
theorem pairwise_division_safe (sqrt : ℚ → ℚ) (p q : WordParticle) (pm : ℚ)
    (hpm : p.mass = JSNum.fin pm) (hmass : 0 < pm) :
    (JSNum.lt (WordParticle.pairDistance sqrt p q) (JSNum.fin 3) = true →
      WordParticle.interact sqrt p q = p)
    ∧ (JSNum.lt (WordParticle.pairDistance sqrt p q) (JSNum.fin 3) = false →
      WordParticle.pairDistance sqrt p q ≠ JSNum.fin 0
      ∧ WordParticle.pairDistance sqrt p q * WordParticle.pairDistance sqrt p q
          ≠ JSNum.fin 0
      ∧ p.mass ≠ JSNum.fin 0
      ∧ ∀ px py qx qy : ℚ, p.x = JSNum.fin px → p.y = JSNum.fin py →
          q.x = JSNum.fin qx → q.y = JSNum.fin qy →
          ∃ d : ℚ, WordParticle.pairDistance sqrt p q = JSNum.fin d ∧ 3 ≤ d) := by
  refine ⟨(interact_skip_iff sqrt p q).1, ?_⟩
  intro hskip
  have hmne : p.mass ≠ JSNum.fin 0 := by
    rw [hpm]
    intro h
    have := JSNum.fin.inj h
    linarith
  have hfin : ∀ d : ℚ, WordParticle.pairDistance sqrt p q = JSNum.fin d → 3 ≤ d := by
    intro d hd
    rw [hd, JSNum.lt_fin_fin] at hskip
    exact not_lt.mp (of_decide_eq_false hskip)
  refine ⟨?_, ?_, hmne, ?_⟩
  · intro h0
    have := hfin 0 h0
    linarith
  · cases hd : WordParticle.pairDistance sqrt p q with
    | fin d =>
      have h3 := hfin d hd
      rw [JSNum.fin_mul_fin]
      intro h
      have := JSNum.fin.inj h
      nlinarith
    | posInf => intro h; cases h
    | negInf => rw [hd] at hskip; simp [JSNum.lt] at hskip
    | nan => intro h; cases h
  · intro px py qx qy hpx hpy hqx hqy
    have hs0 : 0 ≤ (qx - px) * (qx - px) + (qy - py) * (qy - py) :=
      add_nonneg (mul_self_nonneg _) (mul_self_nonneg _)
    have hd : WordParticle.pairDistance sqrt p q
        = JSNum.fin (sqrt ((qx - px) * (qx - px) + (qy - py) * (qy - py))) := by
      unfold WordParticle.pairDistance
      simp only [hpx, hpy, hqx, hqy, JSNum.fin_sub_fin, JSNum.fin_mul_fin, JSNum.fin_add_fin,
        JSNum.sqrtWith_fin sqrt _ hs0]
    exact ⟨_, hd, hfin _ hd⟩

/-- Witness for C25: `p` at the origin, `q` at `(3, 4)`, distance 5. -/
theorem pairwise_division_safe_witness :
    (0 : ℚ) < 30
    ∧ JSNum.lt (WordParticle.pairDistance sqrtQ (particleAt 0 0 1 1) (particleAt 3 4 0 0))
        (JSNum.fin 3) = false
    ∧ WordParticle.pairDistance sqrtQ (particleAt 0 0 1 1) (particleAt 3 4 0 0)
        ≠ JSNum.fin 0
    ∧ WordParticle.pairDistance sqrtQ (particleAt 0 0 1 1) (particleAt 3 4 0 0)
        * WordParticle.pairDistance sqrtQ (particleAt 0 0 1 1) (particleAt 3 4 0 0)
        ≠ JSNum.fin 0
    ∧ (particleAt 0 0 1 1).mass ≠ JSNum.fin 0 :=
  ⟨by norm_num, by decide!,
    ((pairwise_division_safe sqrtQ (particleAt 0 0 1 1) (particleAt 3 4 0 0) 30 rfl
      (by norm_num)).2 (by decide!)).1,
    ((pairwise_division_safe sqrtQ (particleAt 0 0 1 1) (particleAt 3 4 0 0) 30 rfl
      (by norm_num)).2 (by decide!)).2.1,
    ((pairwise_division_safe sqrtQ (particleAt 0 0 1 1) (particleAt 3 4 0 0) 30 rfl
      (by norm_num)).2 (by decide!)).2.2.1⟩

/-- C26: heavier particles accelerate less from repulsion.  For two particles at the same
place with masses `0 < m1 < m2`, and the same other particle `q` of size `qm > 0` at
distance `d >= 3`, the pairwise step subtracts `(delta/d) * r` with
`r = (m + qm) * 800 / (d^2 * m)`, and `r` is strictly smaller for the heavier one. -/
theorem repulsion_decreases_with_mass (sqrt : ℚ → ℚ) (p1 p2 q : WordParticle)
    (px py qx qy v1x v1y v2x v2y m1 m2 qm d : ℚ)
    (h1x : p1.x = JSNum.fin px) (h1y : p1.y = JSNum.fin py)
    (h2x : p2.x = JSNum.fin px) (h2y : p2.y = JSNum.fin py)
    (hqx : q.x = JSNum.fin qx) (hqy : q.y = JSNum.fin qy)
    (h1vx : p1.vx = JSNum.fin v1x) (h1vy : p1.vy = JSNum.fin v1y)
    (h2vx : p2.vx = JSNum.fin v2x) (h2vy : p2.vy = JSNum.fin v2y)
    (h1m : p1.mass = JSNum.fin m1) (h2m : p2.mass = JSNum.fin m2)
    (hqm : q.word.size = JSNum.fin qm)
    (hm1 : 0 < m1) (hm12 : m1 < m2) (hqpos : 0 < qm)
    (hsqrt : ExactSqrtAt sqrt ((qx - px) * (qx - px) + (qy - py) * (qy - py)))
    (hd : sqrt ((qx - px) * (qx - px) + (qy - py) * (qy - py)) = d)
    (hge : 3 ≤ d) :
    WordParticle.interact sqrt p1 q
      = { p1 with
          vx := JSNum.fin (v1x + (qx - px) / d
                  * (-((m1 + qm) * 800 / (d ^ 2 * m1)) + d * 0.00003))
          vy := JSNum.fin (v1y + (qy - py) / d
                  * (-((m1 + qm) * 800 / (d ^ 2 * m1)) + d * 0.00003)) }
    ∧ WordParticle.interact sqrt p2 q
      = { p2 with
          vx := JSNum.fin (v2x + (qx - px) / d
                  * (-((m2 + qm) * 800 / (d ^ 2 * m2)) + d * 0.00003))
          vy := JSNum.fin (v2y + (qy - py) / d
                  * (-((m2 + qm) * 800 / (d ^ 2 * m2)) + d * 0.00003)) }
    ∧ (m2 + qm) * 800 / (d ^ 2 * m2) < (m1 + qm) * 800 / (d ^ 2 * m1)
    ∧ 0 < (m2 + qm) * 800 / (d ^ 2 * m2) := by
  have hm2 : 0 < m2 := lt_trans hm1 hm12
  have hdpos : 0 < d := by linarith
  have hd2 : 0 < d ^ 2 := by positivity
  have e1 := interact_far sqrt p1 q px py qx qy v1x v1y m1 qm d h1x h1y hqx hqy h1vx h1vy
    h1m hqm hm1 hsqrt hd hge
  have e2 := interact_far sqrt p2 q px py qx qy v2x v2y m2 qm d h2x h2y hqx hqy h2vx h2vy
    h2m hqm hm2 hsqrt hd hge
  have r1 : (m1 + qm) * 800 / d ^ 2 / m1 = (m1 + qm) * 800 / (d ^ 2 * m1) := by
    rw [div_div]
  have r2 : (m2 + qm) * 800 / d ^ 2 / m2 = (m2 + qm) * 800 / (d ^ 2 * m2) := by
    rw [div_div]
  rw [r1] at e1
  rw [r2] at e2
  refine ⟨e1, e2, ?_, by positivity⟩
  rw [div_lt_div_iff₀ (by positivity) (by positivity)]
  nlinarith [mul_pos hd2 hqpos, mul_pos (mul_pos hd2 hqpos) (sub_pos.mpr hm12)]

/-- Witness for C26: masses 30 and 60 at the origin, `q` of size 30 at `(3, 4)`. -/
theorem repulsion_decreases_with_mass_witness :
    (0 : ℚ) < 30 ∧ (30 : ℚ) < 60 ∧ (3 : ℚ) ≤ 5
    ∧ WordParticle.interact sqrtQ (particleAt 0 0 1 1) (particleAt 3 4 0 0)
      = { particleAt 0 0 1 1 with
          vx := JSNum.fin (1 + (3 - 0) / 5
                  * (-((30 + 30) * 800 / (5 ^ 2 * 30)) + 5 * 0.00003))
          vy := JSNum.fin (1 + (4 - 0) / 5
                  * (-((30 + 30) * 800 / (5 ^ 2 * 30)) + 5 * 0.00003)) }
    ∧ WordParticle.interact sqrtQ { particleAt 0 0 1 1 with mass := JSNum.fin 60 }
        (particleAt 3 4 0 0)
      = { particleAt 0 0 1 1 with
          mass := JSNum.fin 60
          vx := JSNum.fin (1 + (3 - 0) / 5
                  * (-((60 + 30) * 800 / (5 ^ 2 * 60)) + 5 * 0.00003))
          vy := JSNum.fin (1 + (4 - 0) / 5
                  * (-((60 + 30) * 800 / (5 ^ 2 * 60)) + 5 * 0.00003)) }
    ∧ ((60 : ℚ) + 30) * 800 / (5 ^ 2 * 60) < (30 + 30) * 800 / (5 ^ 2 * 30)
    ∧ (0 : ℚ) < (60 + 30) * 800 / (5 ^ 2 * 60) :=
  ⟨by norm_num, by norm_num, by norm_num,
    repulsion_decreases_with_mass sqrtQ (particleAt 0 0 1 1)
      { particleAt 0 0 1 1 with mass := JSNum.fin 60 } (particleAt 3 4 0 0)
      0 0 3 4 1 1 1 1 30 60 30 5 rfl rfl rfl rfl rfl rfl rfl rfl rfl rfl rfl rfl rfl
      (by norm_num) (by norm_num) (by norm_num)
      (by unfold ExactSqrtAt; decide!) (by decide!) (by norm_num)⟩

/-- C27: starting a drag with the pointer at `e` sets `isDragging` to true, stores
`dragOffset = position - e`, and leaves position, velocity and mass as they were. -/
theorem dragstarted_captures_offset (ex ey : JSNum) (p : WordParticle) :
    (dragstarted ex ey p).isDragging = true
    ∧ (dragstarted ex ey p).dragOffsetX = p.x - ex
    ∧ (dragstarted ex ey p).dragOffsetY = p.y - ey
    ∧ (dragstarted ex ey p).x = p.x ∧ (dragstarted ex ey p).y = p.y
    ∧ (dragstarted ex ey p).vx = p.vx ∧ (dragstarted ex ey p).vy = p.vy
    ∧ (dragstarted ex ey p).mass = p.mass
    ∧ dragstarted ex ey p
        = { p with isDragging := true, dragOffsetX := p.x - ex, dragOffsetY := p.y - ey } :=
  ⟨rfl, rfl, rfl, rfl, rfl, rfl, rfl, rfl, rfl⟩

/-- C28: grabbing does not move the label.  For a particle at a finite position and a
pointer at `e`, `dragstarted` at `e` followed by a drag step at a pointer `e2` moves
towards the target `original position + (e2 - e)`; for `e2 = e` the position is kept
and the velocity becomes `(0, 0)`. -/
theorem grab_does_not_move (p : WordParticle) (px py ex ey : ℚ)
    (hpx : p.x = JSNum.fin px) (hpy : p.y = JSNum.fin py) :
    (∀ e2x e2y : ℚ,
      JSNum.fin e2x + (dragstarted (JSNum.fin ex) (JSNum.fin ey) p).dragOffsetX
          = JSNum.fin (px + (e2x - ex))
      ∧ JSNum.fin e2y + (dragstarted (JSNum.fin ex) (JSNum.fin ey) p).dragOffsetY
          = JSNum.fin (py + (e2y - ey))
      ∧ (dragged (JSNum.fin e2x) (JSNum.fin e2y)
            (dragstarted (JSNum.fin ex) (JSNum.fin ey) p)).vx
          = JSNum.fin (((px + (e2x - ex)) - px) * 0.3)
      ∧ (dragged (JSNum.fin e2x) (JSNum.fin e2y)
            (dragstarted (JSNum.fin ex) (JSNum.fin ey) p)).vy
          = JSNum.fin (((py + (e2y - ey)) - py) * 0.3))
    ∧ (dragged (JSNum.fin ex) (JSNum.fin ey)
          (dragstarted (JSNum.fin ex) (JSNum.fin ey) p)).x = p.x
    ∧ (dragged (JSNum.fin ex) (JSNum.fin ey)
          (dragstarted (JSNum.fin ex) (JSNum.fin ey) p)).y = p.y
    ∧ (dragged (JSNum.fin ex) (JSNum.fin ey)
          (dragstarted (JSNum.fin ex) (JSNum.fin ey) p)).vx = JSNum.fin 0
    ∧ (dragged (JSNum.fin ex) (JSNum.fin ey)
          (dragstarted (JSNum.fin ex) (JSNum.fin ey) p)).vy = JSNum.fin 0 := by
  have hox : (dragstarted (JSNum.fin ex) (JSNum.fin ey) p).dragOffsetX
      = JSNum.fin (px - ex) := by
    show p.x - JSNum.fin ex = _
    rw [hpx, JSNum.fin_sub_fin]
  have hoy : (dragstarted (JSNum.fin ex) (JSNum.fin ey) p).dragOffsetY
      = JSNum.fin (py - ey) := by
    show p.y - JSNum.fin ey = _
    rw [hpy, JSNum.fin_sub_fin]
  have hstep : ∀ e2x e2y : ℚ,
      dragged (JSNum.fin e2x) (JSNum.fin e2y) (dragstarted (JSNum.fin ex) (JSNum.fin ey) p)
        = { dragstarted (JSNum.fin ex) (JSNum.fin ey) p with
            vx := JSNum.fin ((e2x + (px - ex) - px) * 0.3)
            vy := JSNum.fin ((e2y + (py - ey) - py) * 0.3)
            x := JSNum.fin (px + (e2x + (px - ex) - px) * 0.3)
            y := JSNum.fin (py + (e2y + (py - ey) - py) * 0.3) } := fun e2x e2y =>
    dragged_fin _ e2x e2y (px - ex) (py - ey) px py hox hoy hpx hpy
  refine ⟨?_, ?_, ?_, ?_, ?_⟩
  · intro e2x e2y
    refine ⟨?_, ?_, ?_, ?_⟩
    · rw [hox, JSNum.fin_add_fin]
      congr 1
      ring
    · rw [hoy, JSNum.fin_add_fin]
      congr 1
      ring
    · rw [hstep]
      show JSNum.fin _ = JSNum.fin _
      congr 1
      ring
    · rw [hstep]
      show JSNum.fin _ = JSNum.fin _
      congr 1
      ring
  · rw [hstep, hpx]
    show JSNum.fin _ = JSNum.fin _
    congr 1
    ring
  · rw [hstep, hpy]
    show JSNum.fin _ = JSNum.fin _
    congr 1
    ring
  · rw [hstep]
    show JSNum.fin _ = JSNum.fin _
    congr 1
    ring
  · rw [hstep]
    show JSNum.fin _ = JSNum.fin _
    congr 1
    ring

/-- Witness for C28: a particle at `(3, 4)` with velocity `(1, 1)`, grabbed at `(7, 9)`. -/
theorem grab_does_not_move_witness :
    (dragged (JSNum.fin 7) (JSNum.fin 9)
        (dragstarted (JSNum.fin 7) (JSNum.fin 9) (particleAt 3 4 1 1))).x
      = (particleAt 3 4 1 1).x
    ∧ (dragged (JSNum.fin 7) (JSNum.fin 9)
        (dragstarted (JSNum.fin 7) (JSNum.fin 9) (particleAt 3 4 1 1))).y
      = (particleAt 3 4 1 1).y
    ∧ (dragged (JSNum.fin 7) (JSNum.fin 9)
        (dragstarted (JSNum.fin 7) (JSNum.fin 9) (particleAt 3 4 1 1))).vx = JSNum.fin 0
    ∧ (dragged (JSNum.fin 7) (JSNum.fin 9)
        (dragstarted (JSNum.fin 7) (JSNum.fin 9) (particleAt 3 4 1 1))).vy = JSNum.fin 0 :=
  (grab_does_not_move (particleAt 3 4 1 1) 3 4 7 9 rfl rfl).2

/-- The size of a word built from a finite count and a nonzero finite total. -/
theorem words_fin (counts : List ℚ) (total : ℚ) (htotal : total ≠ 0) :
    words (counts.map JSNum.fin) (JSNum.fin total)
      = counts.map (fun count =>
          { size := JSNum.fin (Max.max 30 (count / total * 100 * 5)) }) := by
  unfold words
  rw [List.map_map]
  apply List.map_congr_left
  intro count _
  simp only [Function.comp_apply, JSNum.fin_div_fin _ _ htotal, JSNum.fin_mul_fin]
  rfl

/-- C29: every word built for the genre cloud has size
`max(30, (count / totalResponses) * 100 * 5) >= 30`, so every particle constructed from
such a word has mass `= word.size >= 30 > 0`, for every count and every
`totalResponses > 0`. -/
theorem word_size_at_least_thirty (counts : List ℚ) (total : ℚ) (htotal : 0 < total) :
    (words (counts.map JSNum.fin) (JSNum.fin total)).length = counts.length
    ∧ ∀ (i : ℕ) (count : ℚ), counts.get? i = some count →
        ∃ w : Word, (words (counts.map JSNum.fin) (JSNum.fin total)).get? i = some w
          ∧ w.size = JSNum.fin (Max.max 30 (count / total * 100 * 5))
          ∧ (30 : ℚ) ≤ Max.max 30 (count / total * 100 * 5)
          ∧ (0 : ℚ) < Max.max 30 (count / total * 100 * 5)
          ∧ ∀ x y r1 r2 : JSNum,
              (WordParticle.new w x y r1 r2).mass
                = JSNum.fin (Max.max 30 (count / total * 100 * 5)) := by
  rw [words_fin counts total (ne_of_gt htotal)]
  refine ⟨by simp, ?_⟩
  intro i count hi
  refine ⟨{ size := JSNum.fin (Max.max 30 (count / total * 100 * 5)) }, ?_, rfl,
    le_max_left _ _, lt_of_lt_of_le (by norm_num) (le_max_left _ _), fun _ _ _ _ => rfl⟩
  simp only [List.get?_eq_getElem?, List.getElem?_map] at hi ⊢
  rw [hi]
  rfl

/-- Witness for C29: counts 3 and 50 out of 100 responses give sizes 30 and 250. -/
theorem word_size_at_least_thirty_witness :
    (0 : ℚ) < 100
    ∧ ([3, 50] : List ℚ).get? 1 = some 50
    ∧ ∃ w : Word,
        (words (([3, 50] : List ℚ).map JSNum.fin) (JSNum.fin 100)).get? 1 = some w
          ∧ w.size = JSNum.fin (Max.max 30 ((50 : ℚ) / 100 * 100 * 5))
          ∧ (30 : ℚ) ≤ Max.max 30 ((50 : ℚ) / 100 * 100 * 5)
          ∧ (0 : ℚ) < Max.max 30 ((50 : ℚ) / 100 * 100 * 5)
          ∧ ∀ x y r1 r2 : JSNum,
              (WordParticle.new w x y r1 r2).mass
                = JSNum.fin (Max.max 30 ((50 : ℚ) / 100 * 100 * 5)) :=
  ⟨by norm_num, rfl,
    (word_size_at_least_thirty [3, 50] 100 (by norm_num)).2 1 50 rfl⟩

/-! ## The order of the samples under binary64 rounding -/

/-- Rounding with the identity changes nothing. -/
theorem JSNum.rounded_id (a : JSNum) : JSNum.rounded (fun q => q) a = a := by
  cases a <;> rfl

/-- Without rounding, the rounded kernel is the exact one. -/
theorem kernelEpanechnikovRounded_id (k v : JSNum) :
    kernelEpanechnikovRounded (fun q => q) k v = kernelEpanechnikov k v := by
  unfold kernelEpanechnikovRounded kernelEpanechnikov
  simp only [JSNum.rounded_id]

/-- Without rounding, the rounded estimator is the exact one. -/
theorem kernelDensityEstimatorRounded_id (kernel : JSNum → JSNum) (X V : List JSNum) :
    kernelDensityEstimatorRounded (fun q => q) kernel X V
      = kernelDensityEstimator kernel X V := by
  unfold kernelDensityEstimatorRounded kernelDensityEstimator d3meanRounded d3mean
  simp only [JSNum.rounded_id]

/-- C16, as stated, fails: with binary64 rounding the estimate depends on the order of
the samples.  For the Epanechnikov kernel with `k = 2` and the evaluation point `2`, the
samples `[0.1, 0.1, 0.5]` give the density `2848526764311839 / 2^55`
(`0.07906250000000001`) and their permutation `[0.5, 0.1, 0.1]` gives
`5697053528623677 / 2^56` (`0.0790625`), one unit in the last place below. -/
theorem density_depends_on_sample_order :
    roundToDouble 0.1 = 3602879701896397 / 36028797018963968
    ∧ [JSNum.fin 0.5, JSNum.fin (roundToDouble 0.1), JSNum.fin (roundToDouble 0.1)].Perm
        [JSNum.fin (roundToDouble 0.1), JSNum.fin (roundToDouble 0.1), JSNum.fin 0.5]
    ∧ kernelDensityEstimatorRounded roundToDouble
        (kernelEpanechnikovRounded roundToDouble (JSNum.fin 2)) [JSNum.fin 2]
        [JSNum.fin (roundToDouble 0.1), JSNum.fin (roundToDouble 0.1), JSNum.fin 0.5]
      = [(JSNum.fin 2, some (JSNum.fin (2848526764311839 / 36028797018963968)))]
    ∧ kernelDensityEstimatorRounded roundToDouble
        (kernelEpanechnikovRounded roundToDouble (JSNum.fin 2)) [JSNum.fin 2]
        [JSNum.fin 0.5, JSNum.fin (roundToDouble 0.1), JSNum.fin (roundToDouble 0.1)]
      = [(JSNum.fin 2, some (JSNum.fin (5697053528623677 / 72057594037927936)))]
    ∧ kernelDensityEstimatorRounded roundToDouble
        (kernelEpanechnikovRounded roundToDouble (JSNum.fin 2)) [JSNum.fin 2]
        [JSNum.fin 0.5, JSNum.fin (roundToDouble 0.1), JSNum.fin (roundToDouble 0.1)]
      ≠ kernelDensityEstimatorRounded roundToDouble
        (kernelEpanechnikovRounded roundToDouble (JSNum.fin 2)) [JSNum.fin 2]
        [JSNum.fin (roundToDouble 0.1), JSNum.fin (roundToDouble 0.1), JSNum.fin 0.5] := by
  refine ⟨?_, @List.perm_append_comm JSNum [JSNum.fin 0.5]
    [JSNum.fin (roundToDouble 0.1), JSNum.fin (roundToDouble 0.1)], ?_, ?_, ?_⟩
  · decide!
  · decide!
  · decide!
  · decide!
